import Mathlib

/-!
# PyOtherSide: the Python side of the value converter

A shallow embedding of `src/pyobject_converter.h` (Python 3 build, `PY3K` defined):
`PyObjectListBuilder`, `PyObjectDictBuilder`, `PyObjectListIterator` and
`PyObjectConverter`, over a small model of the part of the CPython C API that the
header calls.

Conventions of the embedding.

* A `PyObject *` is an address (`Addr`); `NULL` is address `0`.  The interpreter state
  (`PyState`) holds the object heap (reference count and contents of every live object),
  the error indicator and what has been written to `stderr`.
* A C function that can run into undefined behaviour (reading through `NULL` or through
  a pointer to a freed object, signed overflow) or into behaviour of the interpreter
  that is not covered here returns `Option`; `none` is "no result in the model".
* Machine integers are mathematical integers, narrowed explicitly with `wrapSigned`
  where the C code converts to a narrower type (the conversion keeps the value modulo
  `2 ^ w`, as every mainstream compiler does and as C++20 requires).  `int` has 32
  bits, `long long` has 64 bits and the width of `long` is a parameter (`longBits`).
* Memory allocation is assumed to succeed.
* `PyObject_Print` runs the `__repr__` of the object it prints, which is code of the
  program: what the call writes and what it does to the heap and to the error indicator
  is read from the state (`onPrint`), so it is arbitrary.
* The branches for Python 2 (`PyInt_Check`, `PyInt_AsLong`) are left out, and so is
  `PyObjectDictIterator`, which is a single call of `PyDict_Next`.
-/

namespace PyOtherSide

/-! ## C integers -/

/-- Result of converting the integer `x` to a signed type of `w` bits (the value
modulo `2 ^ w`, taken in the signed range). -/
def wrapSigned (w : Nat) (x : Int) : Int :=
  (x + 2 ^ (w - 1)) % 2 ^ w - 2 ^ (w - 1)

/-- Whether `x` is representable in a signed type of `w` bits. -/
def fitsSigned (w : Nat) (x : Int) : Bool :=
  decide (-(2 ^ (w - 1) : Int) ≤ x) && decide (x < 2 ^ (w - 1))

/-- Width of the C type `int`. -/
def intBits : Nat := 32

/-- Width of the C type `long long`. -/
def longLongBits : Nat := 64

/-! ## UTF-8 -/

/-- A UTF-8 continuation byte, `10xxxxxx`. -/
def isCont (b : Nat) : Bool := decide (0x80 ≤ b) && decide (b ≤ 0xBF)

/-- UTF-8 encoding of one code point, as done by the strict encoder of CPython:
surrogate code points and values above `0x10FFFF` have no encoding. -/
def utf8EncodeChar (c : Nat) : Option (List Nat) :=
  if c < 0x80 then some [c]
  else if c < 0x800 then some [0xC0 + c / 64, 0x80 + c % 64]
  else if 0xD800 ≤ c ∧ c ≤ 0xDFFF then none
  else if c < 0x10000 then some [0xE0 + c / 4096, 0x80 + c / 64 % 64, 0x80 + c % 64]
  else if c < 0x110000 then
    some [0xF0 + c / 262144, 0x80 + c / 4096 % 64, 0x80 + c / 64 % 64, 0x80 + c % 64]
  else none

/-- UTF-8 encoding of a sequence of code points; fails when one of them has none. -/
def utf8Encode : List Nat → Option (List Nat)
  | [] => some []
  | c :: cs =>
    match utf8EncodeChar c, utf8Encode cs with
    | some bs, some rest => some (bs ++ rest)
    | _, _ => none

/-- Strict decoding of the first code point of a byte sequence: returns the code point
and the remaining bytes.  Overlong forms, encoded surrogates, values above `0x10FFFF`,
stray continuation bytes and truncated sequences are rejected. -/
def utf8DecodeChar : List Nat → Option (Nat × List Nat)
  | [] => none
  | b0 :: rest =>
    if b0 < 0x80 then some (b0, rest)
    else if b0 < 0xC2 then none
    else if b0 < 0xE0 then
      match rest with
      | b1 :: r =>
        if isCont b1 then some ((b0 - 0xC0) * 64 + (b1 - 0x80), r) else none
      | [] => none
    else if b0 < 0xF0 then
      match rest with
      | b1 :: b2 :: r =>
        if isCont b1 && isCont b2 && !(b0 == 0xE0 && decide (b1 < 0xA0))
            && !(b0 == 0xED && decide (0xA0 ≤ b1)) then
          some ((b0 - 0xE0) * 4096 + (b1 - 0x80) * 64 + (b2 - 0x80), r)
        else none
      | _ => none
    else if b0 < 0xF5 then
      match rest with
      | b1 :: b2 :: b3 :: r =>
        if isCont b1 && isCont b2 && isCont b3 && !(b0 == 0xF0 && decide (b1 < 0x90))
            && !(b0 == 0xF4 && decide (0x90 ≤ b1)) then
          some ((b0 - 0xF0) * 262144 + (b1 - 0x80) * 4096 + (b2 - 0x80) * 64 + (b3 - 0x80), r)
        else none
      | _ => none
    else none

/-- The decoding loop: at most `fuel` code points are read. -/
def utf8DecodeLoop : Nat → List Nat → Option (List Nat)
  | _, [] => some []
  | 0, _ :: _ => none
  | fuel + 1, b :: bs =>
    match utf8DecodeChar (b :: bs) with
    | none => none
    | some (c, rest) =>
      match utf8DecodeLoop fuel rest with
      | none => none
      | some cs => some (c :: cs)

/-- Strict UTF-8 decoding of a byte sequence (every code point takes at least one
byte, so the length of the input is enough fuel). -/
def utf8Decode (bs : List Nat) : Option (List Nat) :=
  utf8DecodeLoop bs.length bs

/-- Well-formed UTF-8 byte sequences, after Table 3-7 of the Unicode Standard. -/
def wellFormedUtf8 : List Nat → Bool
  | [] => true
  | b0 :: bs =>
    (decide (b0 ≤ 0x7F) && wellFormedUtf8 bs) ||
    (match bs with
     | [] => false
     | b1 :: bs1 =>
       (decide (0xC2 ≤ b0) && decide (b0 ≤ 0xDF) && isCont b1 && wellFormedUtf8 bs1) ||
       (match bs1 with
        | [] => false
        | b2 :: bs2 =>
          (((b0 == 0xE0 && decide (0xA0 ≤ b1) && decide (b1 ≤ 0xBF)) ||
            (decide (0xE1 ≤ b0) && decide (b0 ≤ 0xEC) && isCont b1) ||
            (b0 == 0xED && decide (0x80 ≤ b1) && decide (b1 ≤ 0x9F)) ||
            (decide (0xEE ≤ b0) && decide (b0 ≤ 0xEF) && isCont b1))
           && isCont b2 && wellFormedUtf8 bs2) ||
          (match bs2 with
           | [] => false
           | b3 :: bs3 =>
             ((b0 == 0xF0 && decide (0x90 ≤ b1) && decide (b1 ≤ 0xBF)) ||
              (decide (0xF1 ≤ b0) && decide (b0 ≤ 0xF3) && isCont b1) ||
              (b0 == 0xF4 && decide (0x80 ≤ b1) && decide (b1 ≤ 0x8F)))
             && isCont b2 && isCont b3 && wellFormedUtf8 bs3)))

/-- What a reader of a `const char *` sees: the bytes before the first NUL. -/
def cstr (bs : List Nat) : List Nat := bs.takeWhile (fun b => b != 0)

/-! ## Python objects and the interpreter state -/

/-- A `PyObject *`. -/
abbrev Addr := Nat

/-- The null pointer. -/
def NULL : Addr := 0

/-- Address of the `None` singleton. -/
def Py_None : Addr := 1

/-- Address of the `True` singleton. -/
def Py_True : Addr := 2

/-- Address of the `False` singleton. -/
def Py_False : Addr := 3

/-- Contents of a Python object, by the built-in type its type derives from.  `long`
stands for `int` and its subclasses other than `bool`, and likewise for the other
constructors; `other` is any object whose type derives from none of the listed types
(a set, a function, an instance of a user class, ...).  A `float` carries the bit
pattern of its C `double`, a `unicode` its code points, a `bytes` its bytes, and the
containers carry the pointers they hold. -/
inductive PyData where
  | bool (b : Bool)
  | long (v : Int)
  | float (bits : Nat)
  | unicode (cps : List Nat)
  | bytes (bs : List Nat)
  | list (items : List Addr)
  | tuple (items : List Addr)
  | dict (entries : List (Addr × Addr))
  | none
  | other (tp : Nat)
  deriving DecidableEq

/-- A live object: its reference count and its contents. -/
structure PyObj where
  ob_refcnt : Nat
  data : PyData
  deriving DecidableEq

/-- Exceptions: those that the modelled C API functions raise, and `ValueError` and
`other` for what the code of an object (its `__repr__`) can raise. -/
inductive PyExc where
  | OverflowError
  | TypeError
  | SystemError
  | IndexError
  | UnicodeDecodeError
  | UnicodeEncodeError
  | ValueError
  | other (tp : Nat)
  deriving DecidableEq

/-- One write to `stderr`: a C string written by `fprintf`, or bytes written while a
`PyObject_Print` call runs. -/
inductive StderrWrite where
  | text (s : String)
  | printed (bs : List Nat)
  deriving DecidableEq

/-- What one call of `PyObject_Print(o, stderr, 0)` does.  The call runs the `__repr__`
of the object, which is code of the program: `written` is what reaches the stream
during the call (the text of the representation when there is one, and whatever the
code itself writes), and `objs`, `brk` and `err` are the heap, the allocator and the
error indicator that the call leaves.  When `__repr__` raises, nothing of the
representation is written and `err` holds the exception. -/
structure PrintEffect where
  written : List (List Nat)
  objs : Addr → Option PyObj
  brk : Addr
  err : Option PyExc

/-- State of the interpreter: the objects, the last address the allocator handed out,
the error indicator, the writes made to `stderr`, oldest first, and `onPrint`, which
stands for the classes of the program: what printing the object at an address does,
given the heap, the allocator and the error indicator at the time of the call. -/
structure PyState where
  objs : Addr → Option PyObj
  brk : Addr
  err : Option PyExc
  stderr : List StderrWrite
  onPrint : Addr → (Addr → Option PyObj) → Addr → Option PyExc → PrintEffect

/-- The live object that a pointer points to; there is none behind `NULL`. -/
def PyState.heap (st : PyState) (a : Addr) : Option PyObj :=
  if a = NULL then Option.none else st.objs a

/-- The state with the object at `a` replaced (or removed). -/
def PyState.store (st : PyState) (a : Addr) (obj : Option PyObj) : PyState :=
  { st with objs := fun x => if x = a then obj else st.objs x }

/-- Allocation of a new object holding `d`, at the address after the last one handed
out; the caller owns its only reference. -/
def PyState.alloc (st : PyState) (d : PyData) : Addr × PyState :=
  (st.brk + 1, { (st.store (st.brk + 1) (some ⟨1, d⟩)) with brk := st.brk + 1 })

/-- The error indicator set to `e`. -/
def PyState.raise (st : PyState) (e : PyExc) : PyState :=
  { st with err := some e }

/-- Reference count of the object at `a`; `0` when there is no live object there. -/
def PyState.refcnt (st : PyState) (a : Addr) : Nat :=
  match st.heap a with
  | some obj => obj.ob_refcnt
  | Option.none => 0

/-- A freshly started interpreter: the three singletons and nothing else; printing an
object writes one chunk (the text is left out) and changes nothing. -/
def PyState.init : PyState where
  objs := fun a =>
    if a = Py_None then some ⟨1, PyData.none⟩
    else if a = Py_True then some ⟨1, PyData.bool true⟩
    else if a = Py_False then some ⟨1, PyData.bool false⟩
    else Option.none
  brk := 3
  err := Option.none
  stderr := []
  onPrint := fun _ objs brk err => ⟨[[]], objs, brk, err⟩

/-- `fprintf(stderr, s)`. -/
def fprintf_stderr (st : PyState) (s : String) : PyState :=
  { st with stderr := st.stderr ++ [StderrWrite.text s] }

/-- `PyObject_Print(o, stderr, 0)`: the representation of `o` is computed by its
`__repr__` and written to the stream.  The call can fail and leave an exception
pending, and the code it runs can change the heap; all of that is what `onPrint` says.
The call is taken to return. -/
def PyObject_Print (st : PyState) (o : Addr) : PyState :=
  { st with
      objs := (st.onPrint o st.objs st.brk st.err).objs
      brk := (st.onPrint o st.objs st.brk st.err).brk
      err := (st.onPrint o st.objs st.brk st.err).err
      stderr := st.stderr ++
        (st.onPrint o st.objs st.brk st.err).written.map StderrWrite.printed }

/-- The singletons are where the C API expects them. -/
def PyState.Singletons (st : PyState) : Prop :=
  (∃ n, st.heap Py_None = some ⟨n, PyData.none⟩) ∧
  (∃ n, st.heap Py_True = some ⟨n, PyData.bool true⟩) ∧
  (∃ n, st.heap Py_False = some ⟨n, PyData.bool false⟩)

/-- `Py_INCREF(o)`. -/
def Py_INCREF (st : PyState) (o : Addr) : Option PyState :=
  match st.heap o with
  | Option.none => Option.none
  | some obj => some (st.store o (some { obj with ob_refcnt := obj.ob_refcnt + 1 }))

/-- `Py_DECREF(o)`: the count is decremented and the object is freed when the last
reference goes.  (What a freed container does to its items is not followed.) -/
def Py_DECREF (st : PyState) (o : Addr) : Option PyState :=
  match st.heap o with
  | Option.none => Option.none
  | some obj =>
    if obj.ob_refcnt ≤ 1 then some (st.store o Option.none)
    else some (st.store o (some { obj with ob_refcnt := obj.ob_refcnt - 1 }))

/-! ### Type checks (`Py*_Check`), on the object pointed to -/

/-- `PyBool_Check`: the type is exactly `bool`. -/
def PyBool_Check : PyData → Bool
  | .bool _ => true
  | _ => false

/-- `PyLong_Check`: the type is `int` or a subtype of it; `bool` is one. -/
def PyLong_Check : PyData → Bool
  | .long _ => true
  | .bool _ => true
  | _ => false

/-- `PyFloat_Check`. -/
def PyFloat_Check : PyData → Bool
  | .float _ => true
  | _ => false

/-- `PyUnicode_Check`. -/
def PyUnicode_Check : PyData → Bool
  | .unicode _ => true
  | _ => false

/-- `PyBytes_Check`. -/
def PyBytes_Check : PyData → Bool
  | .bytes _ => true
  | _ => false

/-- `PyList_Check`. -/
def PyList_Check : PyData → Bool
  | .list _ => true
  | _ => false

/-- `PyTuple_Check`. -/
def PyTuple_Check : PyData → Bool
  | .tuple _ => true
  | _ => false

/-- `PyDict_Check`. -/
def PyDict_Check : PyData → Bool
  | .dict _ => true
  | _ => false

/-! ### Scalars -/

/-- `PyLong_FromLong(v)`: a new reference to an `int` of value `v`. -/
def PyLong_FromLong (st : PyState) (v : Int) : Addr × PyState :=
  st.alloc (.long v)

/-- `PyLong_AsLong(o)` for a `long` of `longBits` bits: the value of an `int` that
fits, and `-1` with `OverflowError` set for one that does not.  Objects that are not
an `int` (converted through `__index__`) are not covered. -/
def PyLong_AsLong (longBits : Nat) (st : PyState) (o : Addr) : Option (Int × PyState) :=
  match st.heap o with
  | Option.none => Option.none
  | some obj =>
    match obj.data with
    | .long v =>
      if fitsSigned longBits v then some (v, st)
      else some (-1, st.raise .OverflowError)
    | .bool b => some (if b then 1 else 0, st)
    | _ => Option.none

/-- `PyFloat_FromDouble(v)`: a new reference to a `float` holding `v`. -/
def PyFloat_FromDouble (st : PyState) (v : Nat) : Addr × PyState :=
  st.alloc (.float v)

/-- `PyFloat_AsDouble(o)`: the `double` held by a `float`.  Objects that are not a
`float` (converted through `__float__`) are not covered. -/
def PyFloat_AsDouble (st : PyState) (o : Addr) : Option (Nat × PyState) :=
  match st.heap o with
  | Option.none => Option.none
  | some obj =>
    match obj.data with
    | .float bits => some (bits, st)
    | _ => Option.none

/-- `PyBool_FromLong(v)`: a new reference to `True` or `False`. -/
def PyBool_FromLong (st : PyState) (v : Int) : Option (Addr × PyState) :=
  let o := if v ≠ 0 then Py_True else Py_False
  match Py_INCREF st o with
  | Option.none => Option.none
  | some st1 => some (o, st1)

/-- `Py_RETURN_NONE`: a new reference to `None`. -/
def Py_RETURN_NONE (st : PyState) : Option (Addr × PyState) :=
  match Py_INCREF st Py_None with
  | Option.none => Option.none
  | some st1 => some (Py_None, st1)

/-! ### Strings -/

/-- `PyUnicode_FromString(v)`: the C string at `v`, decoded as UTF-8, as a new `str`;
`NULL` with `UnicodeDecodeError` set when it is not valid UTF-8. -/
def PyUnicode_FromString (st : PyState) (v : List Nat) : Addr × PyState :=
  match utf8Decode (cstr v) with
  | some cps => st.alloc (.unicode cps)
  | Option.none => (NULL, st.raise .UnicodeDecodeError)

/-- `PyUnicode_AsUTF8String(o)`: a new `bytes` with the UTF-8 encoding of the `str`
`o`; `NULL` with an exception set when `o` is not a `str` or cannot be encoded. -/
def PyUnicode_AsUTF8String (st : PyState) (o : Addr) : Option (Addr × PyState) :=
  match st.heap o with
  | Option.none => Option.none
  | some obj =>
    match obj.data with
    | .unicode cps =>
      match utf8Encode cps with
      | some bs => some (st.alloc (.bytes bs))
      | Option.none => some (NULL, st.raise .UnicodeEncodeError)
    | _ => some (NULL, st.raise .TypeError)

/-- `PyBytes_AsString(o)`: a pointer to the buffer of the `bytes` `o`, given as the
bytes it points to; the null pointer (inner `none`) with `TypeError` set when `o` is
another kind of object. -/
def PyBytes_AsString (st : PyState) (o : Addr) : Option (Option (List Nat) × PyState) :=
  match st.heap o with
  | Option.none => Option.none
  | some obj =>
    match obj.data with
    | .bytes bs => some (some bs, st)
    | _ => some (Option.none, st.raise .TypeError)

/-! ### Lists and tuples -/

/-- `PyList_New(0)`: a new empty list. -/
def PyList_New (st : PyState) : Addr × PyState :=
  st.alloc (.list [])

/-- `PyList_Append(list, o)`: `o` is added at the end of `list`, which takes a
reference of its own to it; the reference of the caller is left alone.  Returns `0`,
or `-1` with `SystemError` set when `list` is not a list or `o` is `NULL`. -/
def PyList_Append (st : PyState) (list o : Addr) : Option (Int × PyState) :=
  match st.heap list with
  | Option.none => Option.none
  | some lobj =>
    if PyList_Check lobj.data && decide (o ≠ NULL) then
      match Py_INCREF st o with
      | Option.none => Option.none
      | some st1 =>
        match st1.heap list with
        | some ⟨n, .list items⟩ => some (0, st1.store list (some ⟨n, .list (items ++ [o])⟩))
        | _ => Option.none
    else some (-1, st.raise .SystemError)

/-- `PyList_Size(list)`, as a `Py_ssize_t`. -/
def PyList_Size (st : PyState) (list : Addr) : Option (Int × PyState) :=
  match st.heap list with
  | Option.none => Option.none
  | some obj =>
    match obj.data with
    | .list items => some ((items.length : Int), st)
    | _ => some (-1, st.raise .SystemError)

/-- `PyTuple_Size(t)`, as a `Py_ssize_t`. -/
def PyTuple_Size (st : PyState) (t : Addr) : Option (Int × PyState) :=
  match st.heap t with
  | Option.none => Option.none
  | some obj =>
    match obj.data with
    | .tuple items => some ((items.length : Int), st)
    | _ => some (-1, st.raise .SystemError)

/-- Item `i` of a sequence of pointers, for a C index: `NULL` with `IndexError` set
when the index is out of bounds. -/
def getItem (st : PyState) (items : List Addr) (i : Int) : Addr × PyState :=
  if 0 ≤ i then
    match items.get? i.toNat with
    | some a => (a, st)
    | Option.none => (NULL, st.raise .IndexError)
  else (NULL, st.raise .IndexError)

/-- `PyList_GetItem(list, i)`: a borrowed reference to item `i`. -/
def PyList_GetItem (st : PyState) (list : Addr) (i : Int) : Option (Addr × PyState) :=
  match st.heap list with
  | Option.none => Option.none
  | some obj =>
    match obj.data with
    | .list items => some (getItem st items i)
    | _ => some (NULL, st.raise .SystemError)

/-- `PyTuple_GetItem(t, i)`: a borrowed reference to item `i`. -/
def PyTuple_GetItem (st : PyState) (t : Addr) (i : Int) : Option (Addr × PyState) :=
  match st.heap t with
  | Option.none => Option.none
  | some obj =>
    match obj.data with
    | .tuple items => some (getItem st items i)
    | _ => some (NULL, st.raise .SystemError)

/-! ### Dictionaries -/

/-- Hashing and comparison of keys, which belong to the interpreter: whether
`PyObject_Hash` succeeds on an object, and whether two keys are the same key. -/
structure KeyOps where
  hashable : PyState → Addr → Bool
  sameKey : PyState → Addr → Addr → Bool

/-- `PyDict_New()`: a new empty dict. -/
def PyDict_New (st : PyState) : Addr × PyState :=
  st.alloc (.dict [])

/-- The entries of a dict with the value stored under the key at position `i`
replaced. -/
def replaceValue (entries : List (Addr × Addr)) (i : Nat) (value : Addr) :
    List (Addr × Addr) :=
  match entries.get? i with
  | some (k, _) => entries.set i (k, value)
  | Option.none => entries

/-- `PyDict_SetItem(dict, key, value)`.  Neither reference of the caller is taken
over: when `key` is new the dict takes a reference of its own to `key` and to
`value`; when the key is present already the dict keeps the key object it has, takes
a reference to `value` and drops the one to the value it replaces.  Returns `0`, or
`-1` with an exception set when `dict` is not a dict or `key` cannot be hashed. -/
def PyDict_SetItem (ops : KeyOps) (st : PyState) (dict key value : Addr) :
    Option (Int × PyState) :=
  match st.heap dict with
  | Option.none => Option.none
  | some dobj =>
    match dobj.data with
    | .dict entries =>
      if ops.hashable st key then
        match entries.findIdx? (fun e => ops.sameKey st e.1 key) with
        | some i =>
          match entries.get? i with
          | Option.none => Option.none
          | some (_, old) =>
            match Py_INCREF st value with
            | Option.none => Option.none
            | some st1 =>
              match st1.heap dict with
              | some ⟨n, .dict es⟩ =>
                match Py_DECREF (st1.store dict (some ⟨n, .dict (replaceValue es i value)⟩)) old with
                | Option.none => Option.none
                | some st2 => some (0, st2)
              | _ => Option.none
        | Option.none =>
          match Py_INCREF st key with
          | Option.none => Option.none
          | some st1 =>
            match Py_INCREF st1 value with
            | Option.none => Option.none
            | some st2 =>
              match st2.heap dict with
              | some ⟨n, .dict es⟩ =>
                some (0, st2.store dict (some ⟨n, .dict (es ++ [(key, value)])⟩))
              | _ => Option.none
      else some (-1, st.raise .TypeError)
    | _ => some (-1, st.raise .SystemError)

/-! ## `converter.h`: the type tags -/

/-- The tags of `enum Type`. -/
inductive TypeTag where
  | NONE
  | INTEGER
  | FLOATING
  | BOOLEAN
  | STRING
  | LIST
  | DICT
  deriving DecidableEq

/-! ## `PyObjectListBuilder` -/

/-- The list builder: the list being built. -/
structure PyObjectListBuilder where
  list : Addr
  deriving DecidableEq

/-- Constructor: `list(PyList_New(0))`. -/
def PyObjectListBuilder.new (st : PyState) : PyObjectListBuilder × PyState :=
  let r := PyList_New st
  (⟨r.1⟩, r.2)

/-- Method `append`: `PyList_Append(list, o);` (the result is ignored). -/
def PyObjectListBuilder.append (st : PyState) (b : PyObjectListBuilder) (o : Addr) :
    Option PyState :=
  match PyList_Append st b.list o with
  | Option.none => Option.none
  | some (_, st1) => some st1

/-- Method `value`: `return list;`. -/
def PyObjectListBuilder.value (b : PyObjectListBuilder) : Addr :=
  b.list

/-- A run of `append` calls, one for each pointer of `os`, in order. -/
def PyObjectListBuilder.appendAll (st : PyState) (b : PyObjectListBuilder) :
    List Addr → Option PyState
  | [] => some st
  | o :: os =>
    match b.append st o with
    | Option.none => Option.none
    | some st1 => PyObjectListBuilder.appendAll st1 b os

/-! ## `PyObjectDictBuilder` -/

/-- The dict builder: the dict being built. -/
structure PyObjectDictBuilder where
  dict : Addr
  deriving DecidableEq

/-- Constructor: `dict(PyDict_New())`. -/
def PyObjectDictBuilder.new (st : PyState) : PyObjectDictBuilder × PyState :=
  let r := PyDict_New st
  (⟨r.1⟩, r.2)

/-- Method `set`: `PyDict_SetItem(dict, key, value); Py_DECREF(value);`. -/
def PyObjectDictBuilder.set (ops : KeyOps) (st : PyState) (b : PyObjectDictBuilder)
    (key value : Addr) : Option PyState :=
  match PyDict_SetItem ops st b.dict key value with
  | Option.none => Option.none
  | some (_, st1) => Py_DECREF st1 value

/-- Method `value`: `return dict;`. -/
def PyObjectDictBuilder.value (b : PyObjectDictBuilder) : Addr :=
  b.dict

/-! ## `PyObjectListIterator` -/

/-- The list iterator: the sequence and the cursor, an `int`. -/
structure PyObjectListIterator where
  list : Addr
  pos : Int
  deriving DecidableEq

/-- Constructor: `list(v), pos(0)`. -/
def PyObjectListIterator.new (v : Addr) : PyObjectListIterator :=
  ⟨v, 0⟩

/-- Method `count`: `PyList_Size` of a list and `PyTuple_Size` of anything else; the
`Py_ssize_t` result is returned as an `int`. -/
def PyObjectListIterator.count (st : PyState) (it : PyObjectListIterator) :
    Option (Int × PyState) :=
  match st.heap it.list with
  | Option.none => Option.none
  | some obj =>
    if PyList_Check obj.data then
      match PyList_Size st it.list with
      | Option.none => Option.none
      | some (n, st1) => some (wrapSigned intBits n, st1)
    else
      match PyTuple_Size st it.list with
      | Option.none => Option.none
      | some (n, st1) => some (wrapSigned intBits n, st1)

/-- Method `next`, called with the variable `*v` holding `out`: the result, the new
value of `*v`, the iterator and the state.  At `pos == count()` nothing is written;
otherwise `*v` receives the item at `pos` and `pos` is incremented (an `int`
increment, which has no result when it overflows). -/
def PyObjectListIterator.next (st : PyState) (it : PyObjectListIterator) (out : Addr) :
    Option (Bool × Addr × PyObjectListIterator × PyState) :=
  match it.count st with
  | Option.none => Option.none
  | some (n, st1) =>
    if it.pos = n then some (false, out, it, st1)
    else
      match st1.heap it.list with
      | Option.none => Option.none
      | some obj =>
        match (if PyList_Check obj.data then PyList_GetItem st1 it.list it.pos
               else PyTuple_GetItem st1 it.list it.pos) with
        | Option.none => Option.none
        | some (item, st2) =>
          if fitsSigned intBits (it.pos + 1) then
            some (true, item, { it with pos := it.pos + 1 }, st2)
          else Option.none

/-- Calls `next` until it returns `false`, at most `fuel` times: the values written to
`*v` by the successful calls, the iterator and the state after the call that returned
`false`; no result when the fuel runs out first. -/
def PyObjectListIterator.drain :
    Nat → PyState → PyObjectListIterator → Addr →
      Option (List Addr × PyObjectListIterator × PyState)
  | 0, _, _, _ => Option.none
  | fuel + 1, st, it, out =>
    match it.next st out with
    | Option.none => Option.none
    | some (false, _, it1, st1) => some ([], it1, st1)
    | some (true, v, it1, st1) =>
      match PyObjectListIterator.drain fuel st1 it1 v with
      | Option.none => Option.none
      | some (vs, it2, st2) => some (v :: vs, it2, st2)

/-! ## `PyObjectConverter` -/

/-- The converter: the transient string buffer, `NULL` when the slot is empty. -/
structure PyObjectConverter where
  stringcontainer : Addr
  deriving DecidableEq

/-- Constructor: `stringcontainer(NULL)`. -/
def PyObjectConverter.new : PyObjectConverter :=
  ⟨NULL⟩

/-- Destructor: `if (stringcontainer != NULL) Py_DECREF(stringcontainer);`. -/
def PyObjectConverter.destructor (st : PyState) (c : PyObjectConverter) : Option PyState :=
  if c.stringcontainer ≠ NULL then Py_DECREF st c.stringcontainer
  else some st

/-- The warning of `type`: `fprintf(stderr, "Warning: Cannot convert:");
PyObject_Print(o, stderr, 0); fprintf(stderr, "\n");` (the result of `PyObject_Print`
is ignored). -/
def warnCannotConvert (st : PyState) (o : Addr) : PyState :=
  fprintf_stderr (PyObject_Print (fprintf_stderr st "Warning: Cannot convert:") o) "\n"

/-- Method `type`: the chain of checks, in the order of the source. -/
def PyObjectConverter.type (st : PyState) (o : Addr) : Option (TypeTag × PyState) :=
  match st.heap o with
  | Option.none => Option.none
  | some obj =>
    if PyBool_Check obj.data then some (.BOOLEAN, st)
    else if PyLong_Check obj.data then some (.INTEGER, st)
    else if PyFloat_Check obj.data then some (.FLOATING, st)
    else if PyUnicode_Check obj.data || PyBytes_Check obj.data then some (.STRING, st)
    else if PyList_Check obj.data || PyTuple_Check obj.data then some (.LIST, st)
    else if PyDict_Check obj.data then some (.DICT, st)
    else if o = Py_None then some (.NONE, st)
    else some (.NONE, warnCannotConvert st o)

/-- Method `integer`: `return PyLong_AsLong(o);`, the `long` converted to the
`long long` of the return type. -/
def PyObjectConverter.integer (longBits : Nat) (st : PyState) (o : Addr) :
    Option (Int × PyState) :=
  match PyLong_AsLong longBits st o with
  | Option.none => Option.none
  | some (r, st1) => some (wrapSigned longLongBits r, st1)

/-- Method `floating`: `return PyFloat_AsDouble(o);`. -/
def PyObjectConverter.floating (st : PyState) (o : Addr) : Option (Nat × PyState) :=
  PyFloat_AsDouble st o

/-- Method `boolean`: `return (o == Py_True);`. -/
def PyObjectConverter.boolean (o : Addr) : Bool :=
  decide (o = Py_True)

/-- Method `string`: the buffer of a `bytes` as it is; for anything else the slot is
released, refilled with `PyUnicode_AsUTF8String(o)` and the buffer of the slot is
returned.  The result is the `const char *` (the bytes it points to, inner `none` for
the null pointer), the converter and the state. -/
def PyObjectConverter.string (st : PyState) (c : PyObjectConverter) (o : Addr) :
    Option (Option (List Nat) × PyObjectConverter × PyState) :=
  match st.heap o with
  | Option.none => Option.none
  | some obj =>
    if PyBytes_Check obj.data then
      match PyBytes_AsString st o with
      | Option.none => Option.none
      | some (p, st1) => some (p, c, st1)
    else
      match (if c.stringcontainer ≠ NULL then Py_DECREF st c.stringcontainer else some st) with
      | Option.none => Option.none
      | some st1 =>
        match PyUnicode_AsUTF8String st1 o with
        | Option.none => Option.none
        | some (sc, st2) =>
          match PyBytes_AsString st2 sc with
          | Option.none => Option.none
          | some (p, st3) => some (p, ⟨sc⟩, st3)

/-- Method `fromInteger`: `PyLong_FromLong((long)v)`. -/
def PyObjectConverter.fromInteger (longBits : Nat) (st : PyState) (v : Int) : Addr × PyState :=
  PyLong_FromLong st (wrapSigned longBits v)

/-- Method `fromFloating`: `PyFloat_FromDouble(v)`. -/
def PyObjectConverter.fromFloating (st : PyState) (v : Nat) : Addr × PyState :=
  PyFloat_FromDouble st v

/-- Method `fromBoolean`: `PyBool_FromLong((long)v)`. -/
def PyObjectConverter.fromBoolean (st : PyState) (v : Bool) : Option (Addr × PyState) :=
  PyBool_FromLong st (if v then 1 else 0)

/-- Method `fromString`: `PyUnicode_FromString(v)`. -/
def PyObjectConverter.fromString (st : PyState) (v : List Nat) : Addr × PyState :=
  PyUnicode_FromString st v

/-- Method `newList`: `new PyObjectListBuilder()`. -/
def PyObjectConverter.newList (st : PyState) : PyObjectListBuilder × PyState :=
  PyObjectListBuilder.new st

/-- Method `newDict`: `new PyObjectDictBuilder()`. -/
def PyObjectConverter.newDict (st : PyState) : PyObjectDictBuilder × PyState :=
  PyObjectDictBuilder.new st

/-- Method `list`: `new PyObjectListIterator(o)`. -/
def PyObjectConverter.list (o : Addr) : PyObjectListIterator :=
  PyObjectListIterator.new o

/-- Method `none`: `Py_RETURN_NONE`. -/
def PyObjectConverter.none (st : PyState) : Option (Addr × PyState) :=
  Py_RETURN_NONE st

/-- A run of `string` calls on one converter, one for each pointer of `os`, in order. -/
def PyObjectConverter.stringAll (st : PyState) (c : PyObjectConverter) :
    List Addr → Option (PyObjectConverter × PyState)
  | [] => some (c, st)
  | o :: os =>
    match c.string st o with
    | Option.none => Option.none
    | some (_, c1, st1) => PyObjectConverter.stringAll st1 c1 os

/-! ## Auxiliary definitions for the statements -/

/-- The tag that the priority order gives to a value, over the Python types it is an
instance of: `bool` before `int` before `float` before `str` or `bytes` before `list`
or `tuple` before `dict`, and `NONE` for everything else. -/
def tagByPriority (isBool isInt isFloat isStr isBytes isList isTuple isDict : Bool) : TypeTag :=
  if isBool then .BOOLEAN
  else if isInt then .INTEGER
  else if isFloat then .FLOATING
  else if isStr || isBytes then .STRING
  else if isList || isTuple then .LIST
  else if isDict then .DICT
  else .NONE

/-- Whether one of the eight type checks of `type` holds of an object. -/
def recognised (d : PyData) : Bool :=
  PyBool_Check d || PyLong_Check d || PyFloat_Check d || PyUnicode_Check d ||
    PyBytes_Check d || PyList_Check d || PyTuple_Check d || PyDict_Check d

/-- Keys as they behave for scalars: lists and dicts cannot be hashed, and two keys
are the same key when they are the same object or have the same contents. -/
def plainKeys : KeyOps where
  hashable := fun st a =>
    match st.heap a with
    | some ⟨_, .list _⟩ => false
    | some ⟨_, .dict _⟩ => false
    | some _ => true
    | Option.none => false
  sameKey := fun st a b =>
    decide (a = b) || decide ((st.heap a).map PyObj.data = (st.heap b).map PyObj.data)

/-- Calls `next` exactly `k` times, each call given the value that `*v` has after the
one before: the result and the value of `*v` after each call, the iterator and the
state at the end. -/
def PyObjectListIterator.calls :
    Nat → PyState → PyObjectListIterator → Addr →
      Option (List (Bool × Addr) × PyObjectListIterator × PyState)
  | 0, st, it, _ => some ([], it, st)
  | k + 1, st, it, out =>
    match it.next st out with
    | Option.none => Option.none
    | some (r, v, it1, st1) =>
      match PyObjectListIterator.calls k st1 it1 v with
      | Option.none => Option.none
      | some (rs, it2, st2) => some ((r, v) :: rs, it2, st2)

/-- The object at `l` is a list or a tuple with the items `xs`. -/
def IsSeq (st : PyState) (l : Addr) (xs : List Addr) : Prop :=
  ∃ k, st.heap l = some ⟨k, .list xs⟩ ∨ st.heap l = some ⟨k, .tuple xs⟩

/-- The allocator invariant: nothing lives above the last address handed out. -/
def PyState.Fresh (st : PyState) : Prop :=
  ∀ a, st.brk < a → st.heap a = Option.none

/-- The encodings of the `str` objects among `os`, in order: the buffers that a run
of `string` calls over `os` makes. -/
def textEncodings (st : PyState) : List Addr → List (List Nat)
  | [] => []
  | o :: os =>
    match st.heap o with
    | some ⟨_, .unicode cps⟩ =>
      match utf8Encode cps with
      | some bs => bs :: textEncodings st os
      | Option.none => textEncodings st os
    | _ => textEncodings st os

/-- An argument that `string` is made for: a `bytes`, or a `str` that has a UTF-8
encoding. -/
def stringArg (st : PyState) (o : Addr) : Bool :=
  match st.heap o with
  | some ⟨_, .bytes _⟩ => true
  | some ⟨_, .unicode cps⟩ => (utf8Encode cps).isSome
  | _ => false

/-- The state of a converter and of the interpreter after a run of `string` calls that
started in `st0` with an empty slot and has made the buffers `encs`, oldest first:
the objects of `st0` are as they were, every buffer but the newest is gone, and the
slot is empty when no buffer was made and holds the only reference to the newest one
otherwise. -/
def SlotInv (st0 st : PyState) (c : PyObjectConverter) (encs : List (List Nat)) : Prop :=
  st.brk = st0.brk + encs.length ∧
  (∀ a, a ≤ st0.brk → st.heap a = st0.heap a) ∧
  (∀ a, st.brk < a → st.heap a = Option.none) ∧
  (∀ a, st0.brk < a → a < st.brk → st.heap a = Option.none) ∧
  (match encs.getLast? with
   | Option.none => c.stringcontainer = NULL
   | some bs => c.stringcontainer = st.brk ∧ st.heap st.brk = some ⟨1, .bytes bs⟩) ∧
  st.err = st0.err ∧ st.stderr = st0.stderr

/-! ## Theorems -/

/-- A code point read by the strict decoder is encodable, and its encoding is exactly the bytes that were consumed. -/
theorem decodeChar_encode (bs : List Nat) (c : Nat) (rest : List Nat)
    (h : utf8DecodeChar bs = some (c, rest)) :
    ∃ enc, utf8EncodeChar c = some enc ∧ bs = enc ++ rest ∧ rest.length < bs.length := by
  cases bs with
  | nil => simp [utf8DecodeChar] at h
  | cons b0 r0 =>
    simp only [utf8DecodeChar] at h
    split_ifs at h with h1 h2 h3 h4 h5
    · simp only [Option.some.injEq, Prod.mk.injEq] at h
      obtain ⟨rfl, rfl⟩ := h
      exact ⟨[b0], by simp [utf8EncodeChar, h1], by simp, by simp⟩
    · cases r0 with
      | nil => simp at h
      | cons b1 r1 =>
        simp only [isCont] at h
        split_ifs at h with hc
        simp only [Option.some.injEq, Prod.mk.injEq] at h
        obtain ⟨rfl, rfl⟩ := h
        simp only [Bool.and_eq_true, decide_eq_true_eq] at hc
        refine ⟨[b0, b1], ?_, by simp, by simp only [List.length_cons]; omega⟩
        unfold utf8EncodeChar
        rw [if_neg (by omega), if_pos (by omega)]
        simp only [Option.some.injEq, List.cons.injEq, and_true]
        constructor <;> omega
    · match r0, h with
      | b1 :: b2 :: r2, h =>
        simp only [isCont] at h
        split_ifs at h with hc
        simp only [Option.some.injEq, Prod.mk.injEq] at h
        obtain ⟨rfl, rfl⟩ := h
        simp only [Bool.and_eq_true, decide_eq_true_eq, Bool.not_eq_true', Bool.and_eq_false_imp,
          beq_iff_eq, decide_eq_false_iff_not] at hc
        refine ⟨[b0, b1, b2], ?_, by simp, by simp only [List.length_cons]; omega⟩
        unfold utf8EncodeChar
        rw [if_neg (by omega), if_neg (by omega), if_neg (by omega), if_pos (by omega)]
        simp only [Option.some.injEq, List.cons.injEq, and_true]
        refine ⟨?_, ?_, ?_⟩ <;> omega
    · match r0, h with
      | b1 :: b2 :: b3 :: r3, h =>
        simp only [isCont] at h
        split_ifs at h with hc
        simp only [Option.some.injEq, Prod.mk.injEq] at h
        obtain ⟨rfl, rfl⟩ := h
        simp only [Bool.and_eq_true, decide_eq_true_eq, Bool.not_eq_true', Bool.and_eq_false_imp,
          beq_iff_eq, decide_eq_false_iff_not] at hc
        refine ⟨[b0, b1, b2, b3], ?_, by simp, by simp only [List.length_cons]; omega⟩
        unfold utf8EncodeChar
        rw [if_neg (by omega), if_neg (by omega), if_neg (by omega), if_neg (by omega),
          if_pos (by omega)]
        simp only [Option.some.injEq, List.cons.injEq, and_true]
        refine ⟨?_, ?_, ?_, ?_⟩ <;> omega


/-- The strict decoder reads the first code point of a non-empty well-formed sequence and leaves a well-formed rest. -/
theorem wellFormed_decodeChar (b : Nat) (bs : List Nat) (h : wellFormedUtf8 (b :: bs) = true) :
    ∃ c rest, utf8DecodeChar (b :: bs) = some (c, rest) ∧ wellFormedUtf8 rest = true := by
  unfold wellFormedUtf8 at h
  simp only [Bool.or_eq_true, Bool.and_eq_true, decide_eq_true_eq] at h
  simp only [utf8DecodeChar]
  rcases h with ⟨h0, hw⟩ | h
  · exact ⟨b, bs, by rw [if_pos (by omega)], hw⟩
  · cases bs with
    | nil => simp at h
    | cons b1 r1 =>
      simp only [Bool.or_eq_true, Bool.and_eq_true, decide_eq_true_eq] at h
      rcases h with ⟨⟨⟨h0, h0b⟩, hc1⟩, hw⟩ | h
      · refine ⟨(b - 192) * 64 + (b1 - 128), r1, ?_, hw⟩
        rw [if_neg (by omega), if_neg (by omega), if_pos (by omega)]
        simp [hc1]
      · cases r1 with
        | nil => simp at h
        | cons b2 r2 =>
          simp only [Bool.or_eq_true, Bool.and_eq_true, decide_eq_true_eq, beq_iff_eq] at h
          rcases h with ⟨⟨hr, hc2⟩, hw⟩ | h
          · refine ⟨(b - 224) * 4096 + (b1 - 128) * 64 + (b2 - 128), r2, ?_, hw⟩
            have hb : 224 ≤ b ∧ b < 240 := by
              simp only [isCont, Bool.and_eq_true, decide_eq_true_eq] at hr
              omega
            rw [if_neg (by omega), if_neg (by omega), if_neg (by omega), if_pos (by omega)]
            simp only [isCont, Bool.and_eq_true, decide_eq_true_eq] at hr hc2 ⊢
            rw [if_pos]
            simp only [isCont, Bool.and_eq_true, decide_eq_true_eq, Bool.not_eq_true',
              Bool.and_eq_false_imp, beq_iff_eq, decide_eq_false_iff_not]
            omega
          · cases r2 with
            | nil => simp at h
            | cons b3 r3 =>
              simp only [Bool.or_eq_true, Bool.and_eq_true, decide_eq_true_eq, beq_iff_eq] at h
              obtain ⟨⟨⟨hr, hc2⟩, hc3⟩, hw⟩ := h
              refine ⟨(b - 240) * 262144 + (b1 - 128) * 4096 + (b2 - 128) * 64 + (b3 - 128),
                r3, ?_, hw⟩
              have hb : 240 ≤ b ∧ b < 245 := by
                simp only [isCont, Bool.and_eq_true, decide_eq_true_eq] at hr
                omega
              rw [if_neg (by omega), if_neg (by omega), if_neg (by omega), if_neg (by omega),
                if_pos (by omega)]
              simp only [isCont, Bool.and_eq_true, decide_eq_true_eq] at hr hc2 hc3 ⊢
              rw [if_pos]
              simp only [isCont, Bool.and_eq_true, decide_eq_true_eq, Bool.not_eq_true',
                Bool.and_eq_false_imp, beq_iff_eq, decide_eq_false_iff_not]
              omega

/-- Decoding a well-formed byte sequence succeeds with enough fuel, and encoding the result gives the bytes back. -/
theorem wellFormed_roundtrip (n : Nat) : ∀ bs : List Nat, bs.length ≤ n →
    wellFormedUtf8 bs = true →
    ∃ cps, utf8DecodeLoop n bs = some cps ∧ utf8Encode cps = some bs := by
  induction n with
  | zero =>
    intro bs hl _
    have : bs = [] := List.length_eq_zero.mp (by omega)
    subst this
    exact ⟨[], by simp [utf8DecodeLoop], by simp [utf8Encode]⟩
  | succ n ih =>
    intro bs hl hw
    cases bs with
    | nil => exact ⟨[], by simp [utf8DecodeLoop], by simp [utf8Encode]⟩
    | cons b r =>
      obtain ⟨c, rest, hd, hwr⟩ := wellFormed_decodeChar b r hw
      obtain ⟨enc, he, hsplit, hlen⟩ := decodeChar_encode _ _ _ hd
      obtain ⟨cs, hcs, hes⟩ := ih rest (by simp only [List.length_cons] at hl hlen; omega) hwr
      refine ⟨c :: cs, ?_, ?_⟩
      · simp [utf8DecodeLoop, hd, hcs]
      · simp [utf8Encode, he, hes, hsplit]

/-- Nothing lives behind the null pointer. -/
@[simp]
theorem heap_NULL (st : PyState) : st.heap NULL = Option.none := by
  simp [PyState.heap]

/-- A pointer to a live object is not null. -/
theorem ne_NULL_of_heap {st : PyState} {a : Addr} {obj : PyObj} (h : st.heap a = some obj) :
    a ≠ NULL := by
  intro h0
  subst h0
  simp at h

/-- Reading the heap after a store at a non-null address. -/
theorem heap_store (st : PyState) (a x : Addr) (v : Option PyObj) (ha : a ≠ NULL) :
    (st.store a v).heap x = if x = a then v else st.heap x := by
  unfold PyState.heap PyState.store
  by_cases hx : x = a
  · subst hx; simp [ha]
  · simp [hx]

/-- A store leaves the allocator alone. -/
@[simp]
theorem store_brk (st : PyState) (a : Addr) (v : Option PyObj) :
    (st.store a v).brk = st.brk := rfl

/-- A store leaves the error indicator alone. -/
@[simp]
theorem store_err (st : PyState) (a : Addr) (v : Option PyObj) :
    (st.store a v).err = st.err := rfl

/-- A store writes nothing to `stderr`. -/
@[simp]
theorem store_stderr (st : PyState) (a : Addr) (v : Option PyObj) :
    (st.store a v).stderr = st.stderr := rfl

/-- Reading the heap after an allocation. -/
theorem heap_alloc (st : PyState) (d : PyData) (x : Addr) :
    (st.alloc d).2.heap x = if x = st.brk + 1 then some ⟨1, d⟩ else st.heap x := by
  have h : st.brk + 1 ≠ NULL := by simp [NULL]
  simp only [PyState.alloc]
  exact heap_store st (st.brk + 1) x _ h

/-- The address that an allocation returns. -/
@[simp]
theorem alloc_fst (st : PyState) (d : PyData) : (st.alloc d).1 = st.brk + 1 := rfl

/-- An allocation advances the allocator by one. -/
@[simp]
theorem alloc_brk (st : PyState) (d : PyData) : (st.alloc d).2.brk = st.brk + 1 := rfl

/-- An allocation leaves the error indicator alone. -/
@[simp]
theorem alloc_err (st : PyState) (d : PyData) : (st.alloc d).2.err = st.err := rfl

/-- An allocation writes nothing to `stderr`. -/
@[simp]
theorem alloc_stderr (st : PyState) (d : PyData) :
    (st.alloc d).2.stderr = st.stderr := rfl

/-- The new object is found at the address that the allocation returned. -/
theorem heap_alloc_self (st : PyState) (d : PyData) :
    (st.alloc d).2.heap (st.brk + 1) = some ⟨1, d⟩ := by
  rw [heap_alloc]; simp

/-- Setting the error indicator leaves the heap alone. -/
@[simp]
theorem heap_raise (st : PyState) (e : PyExc) (x : Addr) :
    (st.raise e).heap x = st.heap x := rfl

/-- Claim C1.  For every live object `o`, `type` returns the tag that the priority order
bool, int, float, str or bytes, list or tuple, dict gives, and `NONE` when none of
these applies: stated over the type checks, and again value by value.  A value that
passes both the bool check and the int check (every `bool` does) is tagged `BOOLEAN`,
and the tag returned is unique. -/
theorem type_first_match (st : PyState) (o : Addr) (obj : PyObj) (h : st.heap o = some obj) :
    (∃ st1, PyObjectConverter.type st o =
        some (tagByPriority (PyBool_Check obj.data) (PyLong_Check obj.data)
          (PyFloat_Check obj.data) (PyUnicode_Check obj.data) (PyBytes_Check obj.data)
          (PyList_Check obj.data) (PyTuple_Check obj.data) (PyDict_Check obj.data), st1)) ∧
    (∃ st1, PyObjectConverter.type st o =
        some ((match obj.data with
          | .bool _ => TypeTag.BOOLEAN
          | .long _ => TypeTag.INTEGER
          | .float _ => TypeTag.FLOATING
          | .unicode _ => TypeTag.STRING
          | .bytes _ => TypeTag.STRING
          | .list _ => TypeTag.LIST
          | .tuple _ => TypeTag.LIST
          | .dict _ => TypeTag.DICT
          | .none => TypeTag.NONE
          | .other _ => TypeTag.NONE), st1)) ∧
    (PyBool_Check obj.data = true → PyLong_Check obj.data = true ∧
      ∃ st1, PyObjectConverter.type st o = some (TypeTag.BOOLEAN, st1)) ∧
    (∃! t, ∃ st1, PyObjectConverter.type st o = some (t, st1)) := by
  obtain ⟨n, d⟩ := obj
  cases d <;>
    simp [PyObjectConverter.type, h, tagByPriority, PyBool_Check, PyLong_Check, PyFloat_Check,
      PyUnicode_Check, PyBytes_Check, PyList_Check, PyTuple_Check, PyDict_Check, ExistsUnique] <;>
    (try split_ifs) <;> simp
/-- The value of `type` on a live object, by cases: a recognised object, `None`, anything else. -/
theorem type_eq (st : PyState) (o : Addr) (obj : PyObj) (h : st.heap o = some obj) :
    PyObjectConverter.type st o =
      if recognised obj.data then
        some (tagByPriority (PyBool_Check obj.data) (PyLong_Check obj.data)
          (PyFloat_Check obj.data) (PyUnicode_Check obj.data) (PyBytes_Check obj.data)
          (PyList_Check obj.data) (PyTuple_Check obj.data) (PyDict_Check obj.data), st)
      else if o = Py_None then some (TypeTag.NONE, st)
      else some (TypeTag.NONE, warnCannotConvert st o) := by
  obtain ⟨n, d⟩ := obj
  unfold PyObjectConverter.type
  rw [h]
  cases d <;> simp [recognised, tagByPriority, PyBool_Check, PyLong_Check,
        PyFloat_Check, PyUnicode_Check, PyBytes_Check, PyList_Check, PyTuple_Check, PyDict_Check]

/-- The range check of `fitsSigned`, as a proposition. -/
theorem fitsSigned_iff (w : Nat) (x : Int) :
    fitsSigned w x = true ↔ -(2 ^ (w - 1) : Int) ≤ x ∧ x < 2 ^ (w - 1) := by
  simp [fitsSigned]

/-- Narrowing to `w` bits keeps a value that fits in `w` bits. -/
theorem wrapSigned_of_fits (w : Nat) (x : Int) (hw : 0 < w) (h : fitsSigned w x = true) :
    wrapSigned w x = x := by
  rw [fitsSigned_iff] at h
  obtain ⟨h1, h2⟩ := h
  have hp : (2 : Int) ^ w = 2 * 2 ^ (w - 1) := by
    obtain ⟨k, rfl⟩ : ∃ k, w = k + 1 := ⟨w - 1, by omega⟩
    simp [pow_succ, mul_comm]
  unfold wrapSigned
  rw [Int.emod_eq_of_lt (by omega) (by omega)]
  omega

/-- A value that fits in `w` bits fits in any wider type. -/
theorem fitsSigned_mono (w w2 : Nat) (x : Int) (hle : w ≤ w2)
    (h : fitsSigned w x = true) : fitsSigned w2 x = true := by
  rw [fitsSigned_iff] at h ⊢
  have hp : (2 : Int) ^ (w - 1) ≤ 2 ^ (w2 - 1) :=
    pow_le_pow_right₀ (by norm_num) (by omega)
  omega

/-- The result of narrowing to `w` bits fits in `w` bits. -/
theorem fitsSigned_wrapSigned (w : Nat) (x : Int) (hw : 0 < w) :
    fitsSigned w (wrapSigned w x) = true := by
  rw [fitsSigned_iff]
  have hp : (2 : Int) ^ w = 2 * 2 ^ (w - 1) := by
    obtain ⟨k, rfl⟩ : ∃ k, w = k + 1 := ⟨w - 1, by omega⟩
    simp [pow_succ, mul_comm]
  have hpos : (0 : Int) < 2 ^ w := by positivity
  unfold wrapSigned
  have h1 := Int.emod_nonneg (x + 2 ^ (w - 1)) (ne_of_gt hpos)
  have h2 := Int.emod_lt_of_pos (x + 2 ^ (w - 1)) hpos
  omega

/-- The method `integer` returns the value of an `int` that fits in a `long`, and changes nothing. -/
theorem integer_long (w : Nat) (st : PyState) (o : Addr) (n : Nat) (v : Int)
    (hw2 : w ≤ longLongBits) (h : st.heap o = some ⟨n, .long v⟩)
    (hf : fitsSigned w v = true) :
    PyObjectConverter.integer w st o = some (v, st) := by
  unfold PyObjectConverter.integer PyLong_AsLong
  rw [h]
  simp only [hf, if_true]
  rw [wrapSigned_of_fits longLongBits v (by decide) (fitsSigned_mono w _ v hw2 hf)]

/-- On an `int` that does not fit in a `long`, `integer` returns `-1` and leaves `OverflowError` set. -/
theorem integer_long_overflow (w : Nat) (st : PyState) (o : Addr) (n : Nat) (v : Int)
    (h : st.heap o = some ⟨n, .long v⟩) (hf : fitsSigned w v = false) :
    PyObjectConverter.integer w st o = some (-1, st.raise .OverflowError) := by
  unfold PyObjectConverter.integer PyLong_AsLong
  rw [h]
  simp only [hf]
  rfl

/-- Claim C3, amended.  For a `long` of `w` bits (`0 < w ≤ 64`) and every `v` in the
signed 64-bit range, `fromInteger v` is a new `int` whose value is `v` narrowed to `w`
bits, `type` tags it `INTEGER` and `integer` reads that value back without an error.
The value is `v` itself whenever `v` fits in a `long`, and so for every `v` when `long`
has 64 bits. -/
theorem fromInteger_roundtrip_in_long (w : Nat) (st : PyState) (v : Int)
    (hw : 0 < w) (hw2 : w ≤ longLongBits) (hv : fitsSigned longLongBits v = true) :
    (PyObjectConverter.fromInteger w st v).2.heap (PyObjectConverter.fromInteger w st v).1 =
        some ⟨1, .long (wrapSigned w v)⟩ ∧
    PyObjectConverter.type (PyObjectConverter.fromInteger w st v).2
        (PyObjectConverter.fromInteger w st v).1 =
      some (TypeTag.INTEGER, (PyObjectConverter.fromInteger w st v).2) ∧
    PyObjectConverter.integer w (PyObjectConverter.fromInteger w st v).2
        (PyObjectConverter.fromInteger w st v).1 =
      some (wrapSigned w v, (PyObjectConverter.fromInteger w st v).2) ∧
    (fitsSigned w v = true → wrapSigned w v = v) ∧
    (w = longLongBits → wrapSigned w v = v) := by
  have hh : (PyObjectConverter.fromInteger w st v).2.heap
      (PyObjectConverter.fromInteger w st v).1 = some ⟨1, .long (wrapSigned w v)⟩ := by
    simp only [PyObjectConverter.fromInteger, PyLong_FromLong, alloc_fst]
    exact heap_alloc_self st _
  refine ⟨hh, ?_, ?_, ?_, ?_⟩
  · rw [type_eq _ _ _ hh]
    simp [recognised, tagByPriority, PyBool_Check, PyLong_Check]
  · exact integer_long w _ _ 1 _ hw2 hh (fitsSigned_wrapSigned w v hw)
  · exact wrapSigned_of_fits w v hw
  · intro he
    subst he
    exact wrapSigned_of_fits _ v hw hv

/-- Instance of the amended C3 with a 32-bit `long` at `v = 7`. -/
theorem fromInteger_roundtrip_in_long_witness :
    0 < 32 ∧ 32 ≤ longLongBits ∧ fitsSigned longLongBits 7 = true ∧
    PyObjectConverter.integer 32 (PyObjectConverter.fromInteger 32 PyState.init 7).2
        (PyObjectConverter.fromInteger 32 PyState.init 7).1 =
      some (wrapSigned 32 7, (PyObjectConverter.fromInteger 32 PyState.init 7).2) :=
  ⟨by decide, by decide, by decide,
    (fromInteger_roundtrip_in_long 32 PyState.init 7 (by decide) (by decide) (by decide)).2.2.1⟩

/-- Counterexample to C3 as stated: with a 32-bit `long`, `fromInteger 2147483648` (a
value inside the signed 64-bit range) is the `int` `-2147483648`, and `integer` reads
`-2147483648` back. -/
theorem fromInteger_narrows_32 :
    fitsSigned longLongBits 2147483648 = true ∧
    (PyObjectConverter.fromInteger 32 PyState.init 2147483648).2.heap
        (PyObjectConverter.fromInteger 32 PyState.init 2147483648).1 =
      some ⟨1, .long (-2147483648)⟩ ∧
    (PyObjectConverter.integer 32 (PyObjectConverter.fromInteger 32 PyState.init 2147483648).2
        (PyObjectConverter.fromInteger 32 PyState.init 2147483648).1).map Prod.fst =
      some (-2147483648) := by
  refine ⟨by decide, by decide, by decide⟩
/-- An object that `type` tags `INTEGER` is an `int` that is not a `bool`, and `type` left the state alone. -/
theorem type_INTEGER_inv (st st1 : PyState) (o : Addr)
    (ht : PyObjectConverter.type st o = some (TypeTag.INTEGER, st1)) :
    st1 = st ∧ ∃ n v, st.heap o = some ⟨n, .long v⟩ := by
  cases hh : st.heap o with
  | none => simp [PyObjectConverter.type, hh] at ht
  | some obj =>
    obtain ⟨n, d⟩ := obj
    rw [type_eq st o _ hh] at ht
    cases d <;> simp [recognised, tagByPriority, PyBool_Check, PyLong_Check,
        PyFloat_Check, PyUnicode_Check, PyBytes_Check, PyList_Check, PyTuple_Check,
        PyDict_Check] at ht
    · exact ⟨ht.symm, n, _, rfl⟩
    all_goals (split_ifs at ht <;> simp at ht)

/-- Claim C4, amended.  An object that `type` tags `INTEGER` is an `int` of some value
`v`; whenever `v` fits in a `long`, `integer` returns exactly `v` and leaves the state,
the error indicator included, as it was.  With a 64-bit `long` that covers every value
that fits in a signed 64-bit integer. -/
theorem integer_exact_in_long (w : Nat) (st st1 : PyState) (o : Addr)
    (hw2 : w ≤ longLongBits)
    (ht : PyObjectConverter.type st o = some (TypeTag.INTEGER, st1)) :
    ∃ n v, st.heap o = some ⟨n, .long v⟩ ∧
      (fitsSigned w v = true → PyObjectConverter.integer w st o = some (v, st)) ∧
      (w = longLongBits → fitsSigned longLongBits v = true →
        PyObjectConverter.integer w st o = some (v, st)) := by
  obtain ⟨_, n, v, hh⟩ := type_INTEGER_inv st st1 o ht
  refine ⟨n, v, hh, ?_, ?_⟩
  · intro hf
    exact integer_long w st o n v hw2 hh hf
  · intro he hf
    subst he
    exact integer_long _ st o n v hw2 hh hf

/-- Counterexample to C4 as stated: the `int` `2^63` is tagged `INTEGER`, and with a
64-bit `long` `integer` returns `-1` with `OverflowError` set where no error was
pending, not the value reduced to 64 bits (`-2^63`). -/
theorem integer_big_int_fails :
    (PyObjectConverter.type (PyState.init.alloc (.long 9223372036854775808)).2 4).map Prod.fst =
      some TypeTag.INTEGER ∧
    (PyObjectConverter.integer 64 (PyState.init.alloc (.long 9223372036854775808)).2 4).map
      Prod.fst = some (-1) ∧
    (PyObjectConverter.integer 64 (PyState.init.alloc (.long 9223372036854775808)).2 4).map
      (fun r => r.2.err) = some (some PyExc.OverflowError) ∧
    wrapSigned 64 9223372036854775808 = -9223372036854775808 ∧
    (PyState.init.alloc (.long 9223372036854775808)).2.err = Option.none := by
  refine ⟨by decide, by decide, by decide, by decide, by decide⟩

/-- Instance of the amended C4 with a 64-bit `long` at the `int` `5`. -/
theorem integer_exact_in_long_witness :
    64 ≤ longLongBits ∧
    PyObjectConverter.type (PyState.init.alloc (.long 5)).2 4 =
      some (TypeTag.INTEGER, (PyState.init.alloc (.long 5)).2) ∧
    ∃ n v, (PyState.init.alloc (.long 5)).2.heap 4 = some ⟨n, .long v⟩ ∧
      (fitsSigned 64 v = true → PyObjectConverter.integer 64 (PyState.init.alloc (.long 5)).2 4 =
        some (v, (PyState.init.alloc (.long 5)).2)) ∧
      (64 = longLongBits → fitsSigned longLongBits v = true →
        PyObjectConverter.integer 64 (PyState.init.alloc (.long 5)).2 4 =
          some (v, (PyState.init.alloc (.long 5)).2)) :=
  ⟨by decide, rfl, integer_exact_in_long 64 (PyState.init.alloc (.long 5)).2
    (PyState.init.alloc (.long 5)).2 4 (by decide) rfl⟩
/-- The effect of `Py_INCREF` on a live object. -/
theorem Py_INCREF_eq (st : PyState) (o : Addr) (obj : PyObj) (h : st.heap o = some obj) :
    Py_INCREF st o = some (st.store o (some ⟨obj.ob_refcnt + 1, obj.data⟩)) := by
  simp [Py_INCREF, h]

/-- The reference count of a live object. -/
theorem refcnt_eq (st : PyState) (o : Addr) (obj : PyObj) (h : st.heap o = some obj) :
    st.refcnt o = obj.ob_refcnt := by
  simp [PyState.refcnt, h]

/-- The state after `append` on a builder whose list is live, for a live value. -/
theorem append_eq (st : PyState) (l o : Addr) (k : Nat) (xs : List Addr) (obj : PyObj)
    (hl : st.heap l = some ⟨k, .list xs⟩) (ho : st.heap o = some obj) :
    PyObjectListBuilder.append st ⟨l⟩ o =
      some ((st.store o (some ⟨obj.ob_refcnt + 1, obj.data⟩)).store l
        (some ⟨if l = o then k + 1 else k, .list (xs ++ [o])⟩)) := by
  have hoN := ne_NULL_of_heap ho
  unfold PyObjectListBuilder.append PyList_Append
  simp only [hl, PyList_Check, hoN, ne_eq, not_false_eq_true, decide_True, Bool.and_self,
    if_true, Py_INCREF_eq st o obj ho]
  rw [heap_store _ _ _ _ hoN]
  by_cases hlo : l = o
  · subst hlo
    rw [hl] at ho
    cases ho
    simp
  · simp [hlo, hl]

/-- What `append` does to the reference count, for every live list and every live value
other than the list: the value is added at the end once and its reference count goes
up by one, so the reference that the caller held is still counted. -/
theorem append_keeps_caller_reference (st : PyState) (b : PyObjectListBuilder) (o : Addr)
    (k : Nat) (xs : List Addr) (obj : PyObj)
    (hl : st.heap b.list = some ⟨k, .list xs⟩) (ho : st.heap o = some obj)
    (hne : o ≠ b.list) :
    ∃ st1, b.append st o = some st1 ∧
      st1.heap b.list = some ⟨k, .list (xs ++ [o])⟩ ∧
      st1.refcnt o = st.refcnt o + 1 ∧
      (xs ++ [o]).count o = xs.count o + 1 := by
  have hlN := ne_NULL_of_heap hl
  have hoN := ne_NULL_of_heap ho
  obtain ⟨l⟩ := b
  refine ⟨_, append_eq st l o k xs obj hl ho, ?_, ?_, ?_⟩
  · rw [heap_store _ _ _ _ hlN]
    simp [Ne.symm hne]
  · simp only [PyState.refcnt]
    rw [heap_store _ _ _ _ hlN, heap_store _ _ _ _ hoN, ho]
    simp [hne]
  · simp [List.count_append]

/-- Claim C5, evaluated on the code.  A value made by `fromInteger 7` has reference
count 1; after `append` on a new builder the list holds it once and its reference
count is 2: the reference of the caller was not given up. -/
theorem append_leaks_reference :
    (PyObjectListBuilder.new PyState.init).1 = ⟨4⟩ ∧
    (PyObjectConverter.fromInteger 64 (PyObjectListBuilder.new PyState.init).2 7).1 = 5 ∧
    (PyObjectConverter.fromInteger 64 (PyObjectListBuilder.new PyState.init).2 7).2.refcnt 5 = 1 ∧
    (PyObjectListBuilder.append
      (PyObjectConverter.fromInteger 64 (PyObjectListBuilder.new PyState.init).2 7).2 ⟨4⟩ 5).map
        (fun s => (s.refcnt 5, s.heap 4)) = some (2, some ⟨1, .list [5]⟩) := by
  refine ⟨by decide, by decide, by decide, by decide⟩
/-- What `set` does to the reference counts when the key is new, for every live dict,
key and value: the entry is added, the reference count of the value is what it was,
and the reference count of the key is one more than it was. -/
theorem set_keeps_key_reference (ops : KeyOps) (st : PyState) (b : PyObjectDictBuilder)
    (key value : Addr) (n : Nat) (es : List (Addr × Addr)) (kobj vobj : PyObj)
    (hd : st.heap b.dict = some ⟨n, .dict es⟩)
    (hk : st.heap key = some kobj) (hv : st.heap value = some vobj)
    (hpos : 0 < vobj.ob_refcnt)
    (hhash : ops.hashable st key = true)
    (hnew : es.findIdx? (fun e => ops.sameKey st e.1 key) = Option.none)
    (hkd : key ≠ b.dict) (hvd : value ≠ b.dict) (hkv : key ≠ value) :
    ∃ st1, b.set ops st key value = some st1 ∧
      st1.heap b.dict = some ⟨n, .dict (es ++ [(key, value)])⟩ ∧
      st1.refcnt key = st.refcnt key + 1 ∧
      st1.refcnt value = st.refcnt value := by
  obtain ⟨d⟩ := b
  simp only at hd hkd hvd
  have hdN := ne_NULL_of_heap hd
  have hkN := ne_NULL_of_heap hk
  have hvN := ne_NULL_of_heap hv
  have h1 : (st.store key (some ⟨kobj.ob_refcnt + 1, kobj.data⟩)).heap value = some vobj := by
    rw [heap_store _ _ _ _ hkN]; simp [Ne.symm hkv, hv]
  have h2 : ((st.store key (some ⟨kobj.ob_refcnt + 1, kobj.data⟩)).store value
      (some ⟨vobj.ob_refcnt + 1, vobj.data⟩)).heap d = some ⟨n, .dict es⟩ := by
    rw [heap_store _ _ _ _ hvN, heap_store _ _ _ _ hkN]; simp [Ne.symm hkd, Ne.symm hvd, hd]
  have h3 : (((st.store key (some ⟨kobj.ob_refcnt + 1, kobj.data⟩)).store value
      (some ⟨vobj.ob_refcnt + 1, vobj.data⟩)).store d
        (some ⟨n, .dict (es ++ [(key, value)])⟩)).heap value =
          some ⟨vobj.ob_refcnt + 1, vobj.data⟩ := by
    rw [heap_store _ _ _ _ hdN, heap_store _ _ _ _ hvN]; simp [hvd]
  have hset : PyDict_SetItem ops st d key value = some (0,
      ((st.store key (some ⟨kobj.ob_refcnt + 1, kobj.data⟩)).store value
        (some ⟨vobj.ob_refcnt + 1, vobj.data⟩)).store d
          (some ⟨n, .dict (es ++ [(key, value)])⟩)) := by
    unfold PyDict_SetItem
    simp only [hd, hhash, if_true, hnew, Py_INCREF_eq st key kobj hk, Py_INCREF_eq _ value vobj h1, h2]
  refine ⟨(((st.store key (some ⟨kobj.ob_refcnt + 1, kobj.data⟩)).store value
      (some ⟨vobj.ob_refcnt + 1, vobj.data⟩)).store d
        (some ⟨n, .dict (es ++ [(key, value)])⟩)).store value
          (some ⟨vobj.ob_refcnt, vobj.data⟩), ?_, ?_, ?_, ?_⟩
  · unfold PyObjectDictBuilder.set
    simp only [hset]
    unfold Py_DECREF
    rw [h3]
    simp only
    rw [if_neg (by omega)]
    simp
  · rw [heap_store _ _ _ _ hvN, heap_store _ _ _ _ hdN]
    simp [Ne.symm hvd]
  · simp only [PyState.refcnt]
    rw [heap_store _ _ _ _ hvN, heap_store _ _ _ _ hdN, heap_store _ _ _ _ hvN,
      heap_store _ _ _ _ hkN, hk]
    simp [hkv, hkd]
  · simp only [PyState.refcnt]
    rw [heap_store _ _ _ _ hvN, hv]
    simp

/-- Claim C6, evaluated on the code.  A key made by `fromString` and a value made by
`fromInteger` have reference count 1 each; after `set` on a new builder the dict holds
the entry, the value has reference count 1 and the key has reference count 2. -/
theorem set_leaks_key_reference :
    (PyObjectDictBuilder.new PyState.init).1 = ⟨4⟩ ∧
    (PyObjectConverter.fromString (PyObjectDictBuilder.new PyState.init).2 [97]).1 = 5 ∧
    (PyObjectConverter.fromInteger 64
      (PyObjectConverter.fromString (PyObjectDictBuilder.new PyState.init).2 [97]).2 1).1 = 6 ∧
    (PyObjectConverter.fromInteger 64
      (PyObjectConverter.fromString (PyObjectDictBuilder.new PyState.init).2 [97]).2 1).2.refcnt 5
        = 1 ∧
    (PyObjectConverter.fromInteger 64
      (PyObjectConverter.fromString (PyObjectDictBuilder.new PyState.init).2 [97]).2 1).2.refcnt 6
        = 1 ∧
    (PyObjectDictBuilder.set plainKeys
      (PyObjectConverter.fromInteger 64
        (PyObjectConverter.fromString (PyObjectDictBuilder.new PyState.init).2 [97]).2 1).2
      ⟨4⟩ 5 6).map (fun s => (s.refcnt 5, s.refcnt 6, s.heap 4)) =
        some (2, 1, some ⟨1, .dict [(5, 6)]⟩) := by
  refine ⟨by decide, by decide, by decide, by decide, by decide, by decide⟩
/-- A length of at most `INT_MAX` is unchanged by the conversion to `int`. -/
theorem wrapSigned_int_of_le (n : Nat) (h : n ≤ 2147483647) :
    wrapSigned intBits (n : Int) = n := by
  apply wrapSigned_of_fits _ _ (by decide)
  rw [fitsSigned_iff]
  simp only [intBits]
  norm_num
  omega

/-- The method `count` returns the length of the sequence converted to `int`, whatever the cursor. -/
theorem count_eq (st : PyState) (l : Addr) (xs : List Addr) (p : Int)
    (hs : IsSeq st l xs) :
    PyObjectListIterator.count st ⟨l, p⟩ = some (wrapSigned intBits xs.length, st) := by
  obtain ⟨k, h | h⟩ := hs <;>
    simp [PyObjectListIterator.count, h, PyList_Check, PyList_Size, PyTuple_Size]

/-- Reading an item at an index inside the sequence. -/
theorem getItem_lt (st : PyState) (xs : List Addr) (i : Nat) (hi : i < xs.length) :
    getItem st xs (i : Int) = (xs.getD i NULL, st) := by
  unfold getItem
  simp [List.getElem?_eq_getElem hi, List.getD_eq_getElem?_getD]

/-- A call of `next` with the cursor inside the sequence yields the item there and advances by one. -/
theorem next_lt (st : PyState) (l : Addr) (xs : List Addr) (i : Nat) (out : Addr)
    (hs : IsSeq st l xs) (hn : xs.length ≤ 2147483647) (hi : i < xs.length) :
    PyObjectListIterator.next st ⟨l, i⟩ out =
      some (true, xs.getD i NULL, ⟨l, (i : Int) + 1⟩, st) := by
  have hc := count_eq st l xs i hs
  rw [wrapSigned_int_of_le _ hn] at hc
  have hne : ¬ ((i : Int) = (xs.length : Int)) := by omega
  have hfit : fitsSigned intBits ((i : Int) + 1) = true := by
    rw [fitsSigned_iff]
    simp only [intBits]
    norm_num
    omega
  have hget := getItem_lt st xs i hi
  unfold PyObjectListIterator.next
  simp only [hc, hne, if_false]
  obtain ⟨k, h | h⟩ := hs <;>
    simp [h, PyList_Check, PyList_GetItem, PyTuple_GetItem, hget, hfit]

/-- A call of `next` with the cursor at the end returns `false` and changes nothing. -/
theorem next_end (st : PyState) (l : Addr) (xs : List Addr) (out : Addr)
    (hs : IsSeq st l xs) (hn : xs.length ≤ 2147483647) :
    PyObjectListIterator.next st ⟨l, (xs.length : Int)⟩ out =
      some (false, out, ⟨l, (xs.length : Int)⟩, st) := by
  have hc := count_eq st l xs xs.length hs
  rw [wrapSigned_int_of_le _ hn] at hc
  unfold PyObjectListIterator.next
  simp [hc]
/-- The trace of `k` calls of `next` from cursor `p`. -/
theorem calls_from (st : PyState) (l : Addr) (xs : List Addr)
    (hs : IsSeq st l xs) (hn : xs.length ≤ 2147483647) (k : Nat) :
    ∀ (p : Nat) (out : Addr), p ≤ xs.length →
      ∃ rs, PyObjectListIterator.calls k st ⟨l, (p : Int)⟩ out =
          some (rs, ⟨l, ((min (p + k) xs.length : Nat) : Int)⟩, st) ∧
        rs.length = k ∧
        ∀ i, i < k → rs.get? i =
          some (if p + i < xs.length then (true, xs.getD (p + i) NULL)
                else (false, if p < xs.length then xs.getD (xs.length - 1) NULL else out)) := by
  induction k with
  | zero =>
    intro p out hp
    refine ⟨[], ?_, rfl, ?_⟩
    · simp [PyObjectListIterator.calls, hp]
    · intro i hi; omega
  | succ k ih =>
    intro p out hp
    by_cases hlt : p < xs.length
    · obtain ⟨rs, hrs, hlen, hent⟩ := ih (p + 1) (xs.getD p NULL) (by omega)
      refine ⟨(true, xs.getD p NULL) :: rs, ?_, by simp [hlen], ?_⟩
      · unfold PyObjectListIterator.calls
        rw [next_lt st l xs p out hs hn hlt]
        simp only
        have hcast : ((p : Int) + 1) = ((p + 1 : Nat) : Int) := by push_cast; rfl
        rw [hcast, hrs]
        have hm : min (p + 1 + k) xs.length = min (p + (k + 1)) xs.length := by
          congr 1; omega
        rw [hm]
      · intro i hi
        cases i with
        | zero => simp [hlt]
        | succ i =>
          have := hent i (by omega)
          simp only [List.get?_cons_succ, this]
          have e1 : p + 1 + i = p + (i + 1) := by omega
          rw [e1]
          by_cases h2 : p + (i + 1) < xs.length
          · simp [h2]
          · simp only [h2, if_false, hlt, if_true]
            by_cases h3 : p + 1 < xs.length
            · simp [h3]
            · have : xs.length - 1 = p := by omega
              simp [h3, this]
    · have hpe : p = xs.length := by omega
      subst hpe
      obtain ⟨rs, hrs, hlen, hent⟩ := ih xs.length out (le_refl _)
      refine ⟨(false, out) :: rs, ?_, by simp [hlen], ?_⟩
      · unfold PyObjectListIterator.calls
        rw [next_end st l xs out hs hn]
        simp only
        rw [hrs]
        simp
      · intro i hi
        cases i with
        | zero => simp
        | succ i =>
          have := hent i (by omega)
          simp only [List.get?_cons_succ, this]
          simp

/-- Reading from cursor `p` to the end yields the items from `p` on. -/
theorem drain_from (st : PyState) (l : Addr) (xs : List Addr)
    (hs : IsSeq st l xs) (hn : xs.length ≤ 2147483647) (fuel : Nat) :
    ∀ (p : Nat) (out : Addr), p ≤ xs.length → xs.length - p < fuel →
      PyObjectListIterator.drain fuel st ⟨l, (p : Int)⟩ out =
        some (xs.drop p, ⟨l, (xs.length : Int)⟩, st) := by
  induction fuel with
  | zero => intro p out _ hf; omega
  | succ fuel ih =>
    intro p out hp hf
    by_cases hlt : p < xs.length
    · unfold PyObjectListIterator.drain
      rw [next_lt st l xs p out hs hn hlt]
      simp only
      have hcast : ((p : Int) + 1) = ((p + 1 : Nat) : Int) := by push_cast; rfl
      rw [hcast, ih (p + 1) _ (by omega) (by omega)]
      simp only [Option.some.injEq, Prod.mk.injEq, and_true]
      rw [List.drop_eq_getElem_cons hlt]
      simp [List.getD_eq_getElem?_getD, List.getElem?_eq_getElem hlt]
    · have hpe : p = xs.length := by omega
      subst hpe
      unfold PyObjectListIterator.drain
      rw [next_end st l xs out hs hn]
      simp
/-- Claim C7, amended.  For a list or tuple `xs` of at most `INT_MAX = 2147483647` items:
`count` returns the length of `xs` at every cursor and in the same state; of `k` calls
of `next` on a new iterator, call `i` returns `true` with item `i` for `i` below the
length and `false` with `*v` unchanged from then on, the cursor ends at the smaller of
`k` and the length, and no call changes the state. -/
theorem iterator_enumerates (st : PyState) (l : Addr) (xs : List Addr)
    (hs : IsSeq st l xs) (hn : xs.length ≤ 2147483647) :
    (∀ p : Int, PyObjectListIterator.count st ⟨l, p⟩ = some ((xs.length : Int), st)) ∧
    (∀ (k : Nat) (out : Addr), ∃ rs,
      PyObjectListIterator.calls k st (PyObjectListIterator.new l) out =
        some (rs, ⟨l, ((min k xs.length : Nat) : Int)⟩, st) ∧
      rs.length = k ∧
      (∀ i, i < k → i < xs.length → rs.get? i = (xs.get? i).map (fun v => (true, v))) ∧
      (∀ i, i < k → xs.length ≤ i →
        rs.get? i = some (false, (xs.getLast?).getD out))) ∧
    (∀ out : Addr, PyObjectListIterator.next st ⟨l, (xs.length : Int)⟩ out =
      some (false, out, ⟨l, (xs.length : Int)⟩, st)) := by
  refine ⟨?_, ?_, ?_⟩
  · intro p
    rw [count_eq st l xs p hs, wrapSigned_int_of_le _ hn]
  · intro k out
    obtain ⟨rs, hrs, hlen, hent⟩ := calls_from st l xs hs hn k 0 out (Nat.zero_le _)
    refine ⟨rs, ?_, hlen, ?_, ?_⟩
    · simpa [PyObjectListIterator.new] using hrs
    · intro i hik hin
      rw [hent i hik]
      simp [hin, List.getD_eq_getElem?_getD, List.getElem?_eq_getElem hin]
    · intro i hik hin
      rw [hent i hik]
      have h1 : ¬ (0 + i < xs.length) := by omega
      simp only [h1, if_false]
      by_cases h0 : 0 < xs.length
      · simp only [h0, if_true]
        rw [List.getLast?_eq_getElem?, List.getD_eq_getElem?_getD,
          List.getElem?_eq_getElem (by omega : xs.length - 1 < xs.length)]
        simp
      · have : xs = [] := List.length_eq_zero.mp (by omega)
        subst this
        simp
  · intro out
    exact next_end st l xs out hs hn

/-- Instance of the amended C7 on a two-item list: the call at the end returns `false`. -/
theorem iterator_enumerates_witness :
    IsSeq (PyState.init.alloc (.list [Py_True, Py_None])).2 4 [Py_True, Py_None] ∧
    [Py_True, Py_None].length ≤ 2147483647 ∧
    (∀ out : Addr, PyObjectListIterator.next (PyState.init.alloc (.list [Py_True, Py_None])).2
        ⟨4, (([Py_True, Py_None] : List Addr).length : Int)⟩ out =
      some (false, out, ⟨4, (([Py_True, Py_None] : List Addr).length : Int)⟩,
        (PyState.init.alloc (.list [Py_True, Py_None])).2)) :=
  ⟨⟨1, Or.inl (by decide)⟩, by decide,
    (iterator_enumerates (PyState.init.alloc (.list [Py_True, Py_None])).2 4 [Py_True, Py_None]
      ⟨1, Or.inl (by decide)⟩ (by decide)).2.2⟩

/-- Counterexample to C7 as stated: on a list of `2^31` items `count` returns
`-2147483648`, which is neither the length nor non-negative. -/
theorem count_wraps_to_negative :
    IsSeq (PyState.init.alloc (.list (List.replicate 2147483648 Py_None))).2 4
      (List.replicate 2147483648 Py_None) ∧
    (List.replicate 2147483648 Py_None).length = 2147483648 ∧
    PyObjectListIterator.count (PyState.init.alloc (.list (List.replicate 2147483648 Py_None))).2
        (PyObjectListIterator.new 4) =
      some (-2147483648, (PyState.init.alloc (.list (List.replicate 2147483648 Py_None))).2) := by
  have hs : IsSeq (PyState.init.alloc (.list (List.replicate 2147483648 Py_None))).2 4
      (List.replicate 2147483648 Py_None) :=
    ⟨1, Or.inl (heap_alloc_self PyState.init _)⟩
  refine ⟨hs, List.length_replicate _ _, ?_⟩
  rw [PyObjectListIterator.new, count_eq _ 4 _ 0 hs, List.length_replicate]
  have : wrapSigned intBits ((2147483648 : Nat) : Int) = -2147483648 := by decide
  rw [this]
/-- One `append` of a live value: the list grows by it at the end and every live object stays live. -/
theorem append_step (st : PyState) (l o : Addr) (k : Nat) (xs : List Addr)
    (hl : st.heap l = some ⟨k, .list xs⟩) (ho : (st.heap o).isSome = true) :
    ∃ st1 k1, PyObjectListBuilder.append st ⟨l⟩ o = some st1 ∧
      st1.heap l = some ⟨k1, .list (xs ++ [o])⟩ ∧
      (∀ a, (st.heap a).isSome = true → (st1.heap a).isSome = true) ∧
      st1.err = st.err ∧ st1.stderr = st.stderr ∧ st1.brk = st.brk := by
  obtain ⟨obj, ho⟩ := Option.isSome_iff_exists.mp ho
  have hlN := ne_NULL_of_heap hl
  have hoN := ne_NULL_of_heap ho
  refine ⟨_, (if l = o then k + 1 else k), append_eq st l o k xs obj hl ho, ?_, ?_, rfl, rfl, rfl⟩
  · rw [heap_store _ _ _ _ hlN]; simp
  · intro a ha
    rw [heap_store _ _ _ _ hlN, heap_store _ _ _ _ hoN]
    split_ifs <;> simp [ha]

/-- A run of `append` calls on a list holding `xs` leaves it holding `xs` followed by the values, in order. -/
theorem appendAll_from (l : Addr) (vs : List Addr) :
    ∀ (st : PyState) (k : Nat) (xs : List Addr),
      st.heap l = some ⟨k, .list xs⟩ → (∀ v ∈ vs, (st.heap v).isSome = true) →
      ∃ st1 k1, PyObjectListBuilder.appendAll st ⟨l⟩ vs = some st1 ∧
        st1.heap l = some ⟨k1, .list (xs ++ vs)⟩ ∧
        st1.err = st.err ∧ st1.stderr = st.stderr := by
  induction vs with
  | nil =>
    intro st k xs hl _
    exact ⟨st, k, rfl, by simpa using hl, rfl, rfl⟩
  | cons v vs ih =>
    intro st k xs hl hlive
    obtain ⟨st1, k1, ha, hl1, hkeep, he, hs, _⟩ :=
      append_step st l v k xs hl (hlive v (List.mem_cons_self _ _))
    obtain ⟨st2, k2, hb, hl2, he2, hs2⟩ := ih st1 k1 (xs ++ [v]) hl1
      (fun w hw => hkeep w (hlive w (List.mem_cons_of_mem _ hw)))
    refine ⟨st2, k2, ?_, ?_, he2.trans he, hs2.trans hs⟩
    · simp only [PyObjectListBuilder.appendAll, ha, hb]
    · simpa using hl2

/-- A list is tagged `LIST`. -/
theorem type_of_list (st : PyState) (l : Addr) (k : Nat) (xs : List Addr)
    (hl : st.heap l = some ⟨k, .list xs⟩) :
    PyObjectConverter.type st l = some (TypeTag.LIST, st) := by
  rw [type_eq st l _ hl]
  simp [recognised, tagByPriority, PyBool_Check, PyLong_Check, PyFloat_Check, PyUnicode_Check,
    PyBytes_Check, PyList_Check]

/-- A new builder holds an empty list with one reference. -/
theorem new_list_empty (st : PyState) :
    (PyObjectListBuilder.new st).2.heap (PyObjectListBuilder.new st).1.value =
      some ⟨1, .list []⟩ := by
  simp only [PyObjectListBuilder.new, PyObjectListBuilder.value, PyList_New, alloc_fst]
  exact heap_alloc_self st _

/-- Claim C9, amended.  A new builder holds an empty list, which `type` tags `LIST`.
After `append` of the live values `vs` in order, `value()` is a list whose items are
exactly `vs` (same length, same order), tagged `LIST`; when `vs` has at most
`INT_MAX = 2147483647` items, reading it with a `PyObjectListIterator` until `next`
returns `false` yields `vs`.  Each single `append` adds its value at the end of
whatever the list held. -/
theorem builder_keeps_order (st0 : PyState) (vs : List Addr)
    (hlive : ∀ v ∈ vs, ((PyObjectListBuilder.new st0).2.heap v).isSome = true) :
    (PyObjectListBuilder.new st0).2.heap (PyObjectListBuilder.new st0).1.value =
        some ⟨1, .list []⟩ ∧
    PyObjectConverter.type (PyObjectListBuilder.new st0).2
        (PyObjectListBuilder.new st0).1.value =
      some (TypeTag.LIST, (PyObjectListBuilder.new st0).2) ∧
    (∃ st2 k, (PyObjectListBuilder.new st0).1.appendAll (PyObjectListBuilder.new st0).2 vs =
        some st2 ∧
      st2.heap (PyObjectListBuilder.new st0).1.value = some ⟨k, .list vs⟩ ∧
      PyObjectConverter.type st2 (PyObjectListBuilder.new st0).1.value =
        some (TypeTag.LIST, st2) ∧
      (vs.length ≤ 2147483647 → ∀ out : Addr,
        PyObjectListIterator.drain (vs.length + 1) st2
            (PyObjectConverter.list (PyObjectListBuilder.new st0).1.value) out =
          some (vs, ⟨(PyObjectListBuilder.new st0).1.value, (vs.length : Int)⟩, st2))) ∧
    (∀ (st : PyState) (b : PyObjectListBuilder) (k : Nat) (xs : List Addr) (o : Addr),
      st.heap b.value = some ⟨k, .list xs⟩ → (st.heap o).isSome = true →
      ∃ st1 k1, b.append st o = some st1 ∧ st1.heap b.value = some ⟨k1, .list (xs ++ [o])⟩) := by
  have h0 := new_list_empty st0
  refine ⟨h0, type_of_list _ _ _ _ h0, ?_, ?_⟩
  · obtain ⟨st2, k, ha, hl, _, _⟩ :=
      appendAll_from (PyObjectListBuilder.new st0).1.value vs _ 1 [] h0 hlive
    refine ⟨st2, k, ha, by simpa using hl, type_of_list _ _ _ _ hl, ?_⟩
    intro hn out
    have hs : IsSeq st2 (PyObjectListBuilder.new st0).1.value vs :=
      ⟨k, Or.inl (by simpa using hl)⟩
    have := drain_from st2 _ vs hs hn (vs.length + 1) 0 out (Nat.zero_le _) (by omega)
    simpa [PyObjectConverter.list, PyObjectListIterator.new] using this
  · intro st b k xs o hl ho
    obtain ⟨st1, k1, ha, hl1, _⟩ := append_step st b.value o k xs hl ho
    exact ⟨st1, k1, ha, hl1⟩

/-- Instance of the amended C9 with three values, one of them twice. -/
theorem builder_keeps_order_witness :
    (∀ v ∈ [Py_True, Py_None, Py_True],
      ((PyObjectListBuilder.new PyState.init).2.heap v).isSome = true) ∧
    (∃ st2 k, (PyObjectListBuilder.new PyState.init).1.appendAll
        (PyObjectListBuilder.new PyState.init).2 [Py_True, Py_None, Py_True] = some st2 ∧
      st2.heap (PyObjectListBuilder.new PyState.init).1.value =
        some ⟨k, .list [Py_True, Py_None, Py_True]⟩ ∧
      PyObjectConverter.type st2 (PyObjectListBuilder.new PyState.init).1.value =
        some (TypeTag.LIST, st2) ∧
      ([Py_True, Py_None, Py_True].length ≤ 2147483647 → ∀ out : Addr,
        PyObjectListIterator.drain ([Py_True, Py_None, Py_True].length + 1) st2
            (PyObjectConverter.list (PyObjectListBuilder.new PyState.init).1.value) out =
          some ([Py_True, Py_None, Py_True],
            ⟨(PyObjectListBuilder.new PyState.init).1.value,
              (([Py_True, Py_None, Py_True] : List Addr).length : Int)⟩, st2))) :=
  ⟨by decide, (builder_keeps_order PyState.init [Py_True, Py_None, Py_True] (by decide)).2.2.1⟩

/-- Counterexample to C9 as stated: after `2^32` calls of `append` the list has `2^32`
items, and the first `next` of an iterator over it returns `false`: nothing is read
back. -/
theorem readback_of_huge_list_is_empty :
    (List.replicate 4294967296 Py_None).length = 4294967296 ∧
    ∃ st2 k, (PyObjectListBuilder.new PyState.init).1.appendAll
        (PyObjectListBuilder.new PyState.init).2 (List.replicate 4294967296 Py_None) = some st2 ∧
      st2.heap (PyObjectListBuilder.new PyState.init).1.value =
        some ⟨k, .list (List.replicate 4294967296 Py_None)⟩ ∧
      PyObjectListIterator.next st2
          (PyObjectConverter.list (PyObjectListBuilder.new PyState.init).1.value) NULL =
        some (false, NULL,
          PyObjectConverter.list (PyObjectListBuilder.new PyState.init).1.value, st2) ∧
      PyObjectListIterator.drain 1 st2
          (PyObjectConverter.list (PyObjectListBuilder.new PyState.init).1.value) NULL =
        some ([], PyObjectConverter.list (PyObjectListBuilder.new PyState.init).1.value, st2) := by
  refine ⟨List.length_replicate _ _, ?_⟩
  have hlive : ∀ v ∈ List.replicate 4294967296 Py_None,
      ((PyObjectListBuilder.new PyState.init).2.heap v).isSome = true := by
    intro v hv
    rw [List.eq_of_mem_replicate hv]
    decide
  obtain ⟨st2, k, ha, hl, _, _⟩ :=
    appendAll_from (PyObjectListBuilder.new PyState.init).1.value _ _ 1 []
      (new_list_empty PyState.init) hlive
  have hl2 : st2.heap (PyObjectListBuilder.new PyState.init).1.value =
      some ⟨k, .list (List.replicate 4294967296 Py_None)⟩ := by
    rw [List.nil_append] at hl
    exact hl
  have hw : wrapSigned intBits ((4294967296 : Nat) : Int) = 0 := by decide
  have hc := count_eq st2 (PyObjectListBuilder.new PyState.init).1.value _ 0 ⟨k, Or.inl hl2⟩
  rw [List.length_replicate, hw] at hc
  have hnext : PyObjectListIterator.next st2
      (PyObjectConverter.list (PyObjectListBuilder.new PyState.init).1.value) NULL =
        some (false, NULL,
          PyObjectConverter.list (PyObjectListBuilder.new PyState.init).1.value, st2) := by
    unfold PyObjectListIterator.next
    simp only [PyObjectConverter.list, PyObjectListIterator.new]
    rw [hc]
    simp
  refine ⟨st2, k, ha, hl2, hnext, ?_⟩
  unfold PyObjectListIterator.drain
  rw [hnext]
/-- The effect of `Py_DECREF` on a live object. -/
theorem Py_DECREF_eq (st : PyState) (o : Addr) (obj : PyObj) (h : st.heap o = some obj) :
    Py_DECREF st o = some (st.store o
      (if obj.ob_refcnt ≤ 1 then Option.none else some ⟨obj.ob_refcnt - 1, obj.data⟩)) := by
  unfold Py_DECREF
  rw [h]
  simp only
  split_ifs <;> rfl

/-- A byte string without a NUL is read whole as a C string. -/
theorem cstr_of_no_NUL (s : List Nat) (h : 0 ∉ s) : cstr s = s := by
  unfold cstr
  rw [List.takeWhile_eq_self_iff]
  intro b hb
  simp only [bne_iff_ne, ne_eq]
  intro hb0
  exact h (hb0 ▸ hb)

/-- On well-formed UTF-8 without a NUL, `fromString` makes a `str` whose encoding is the input. -/
theorem fromString_eq (st : PyState) (s : List Nat) (hw : wellFormedUtf8 s = true)
    (h0 : 0 ∉ s) :
    ∃ cps, PyObjectConverter.fromString st s = st.alloc (.unicode cps) ∧
      utf8Encode cps = some s := by
  obtain ⟨cps, hd, he⟩ := wellFormed_roundtrip s.length s (le_refl _) hw
  refine ⟨cps, ?_, he⟩
  simp only [PyObjectConverter.fromString, PyUnicode_FromString, cstr_of_no_NUL s h0, utf8Decode, hd]

/-- The method `string` on an encodable `str`, given the state left by the release of the slot. -/
theorem string_of_text_core (st st1 : PyState) (c : PyObjectConverter) (o : Addr) (n : Nat)
    (cps bs : List Nat) (ho : st.heap o = some ⟨n, .unicode cps⟩)
    (he : utf8Encode cps = some bs)
    (h1 : (if c.stringcontainer ≠ NULL then Py_DECREF st c.stringcontainer else some st) =
      some st1)
    (h2 : st1.heap o = some ⟨n, .unicode cps⟩) (h3 : st1.brk = st.brk) :
    PyObjectConverter.string st c o =
      some (some bs, ⟨st.brk + 1⟩, (st1.alloc (.bytes bs)).2) := by
  unfold PyObjectConverter.string
  simp only [ho, PyBytes_Check, h1]
  have h4 : (st1.alloc (.bytes bs)).2.heap (st.brk + 1) = some ⟨1, .bytes bs⟩ := by
    rw [← h3]; exact heap_alloc_self st1 _
  simp only [PyUnicode_AsUTF8String, h2, he, PyBytes_AsString, alloc_fst, h3, h4]
  simp

/-- The method `string` on an encodable `str` with an empty slot. -/
theorem string_of_text_empty_slot (st : PyState) (c : PyObjectConverter) (o : Addr) (n : Nat)
    (cps bs : List Nat) (ho : st.heap o = some ⟨n, .unicode cps⟩)
    (he : utf8Encode cps = some bs) (hslot : c.stringcontainer = NULL) :
    PyObjectConverter.string st c o =
      some (some bs, ⟨st.brk + 1⟩, (st.alloc (.bytes bs)).2) :=
  string_of_text_core st st c o n cps bs ho he (by simp [hslot]) ho rfl

/-- The method `string` on an encodable `str` with a buffer in the slot. -/
theorem string_of_text_full_slot (st : PyState) (c : PyObjectConverter) (o : Addr) (n : Nat)
    (cps bs : List Nat) (obj : PyObj) (ho : st.heap o = some ⟨n, .unicode cps⟩)
    (he : utf8Encode cps = some bs)
    (hobj : st.heap c.stringcontainer = some obj) (hne : c.stringcontainer ≠ o) :
    PyObjectConverter.string st c o =
      some (some bs, ⟨st.brk + 1⟩,
        ((st.store c.stringcontainer
          (if obj.ob_refcnt ≤ 1 then Option.none
            else some ⟨obj.ob_refcnt - 1, obj.data⟩)).alloc (.bytes bs)).2) := by
  have hsN := ne_NULL_of_heap hobj
  refine string_of_text_core st _ c o n cps bs ho he ?_ ?_ rfl
  · rw [if_pos hsN, Py_DECREF_eq st _ obj hobj]
  · rw [heap_store _ _ _ _ hsN, if_neg (Ne.symm hne), ho]

/-- The method `string` on a `bytes`: its own buffer, nothing changed. -/
theorem string_of_bytes (st : PyState) (c : PyObjectConverter) (o : Addr) (n : Nat)
    (bs : List Nat) (ho : st.heap o = some ⟨n, .bytes bs⟩) :
    PyObjectConverter.string st c o = some (some bs, c, st) := by
  unfold PyObjectConverter.string
  simp [ho, PyBytes_Check, PyBytes_AsString]
/-- The tag of a recognised object. -/
theorem type_of_data (st : PyState) (o : Addr) (obj : PyObj) (h : st.heap o = some obj)
    (hr : recognised obj.data = true) :
    PyObjectConverter.type st o =
      some (tagByPriority (PyBool_Check obj.data) (PyLong_Check obj.data)
          (PyFloat_Check obj.data) (PyUnicode_Check obj.data) (PyBytes_Check obj.data)
          (PyList_Check obj.data) (PyTuple_Check obj.data) (PyDict_Check obj.data), st) := by
  rw [type_eq st o obj h, if_pos hr]

/-- The method `fromBoolean` returns the matching singleton with one more reference. -/
theorem fromBoolean_eq (st : PyState) (b : Bool) (hs : st.Singletons) :
    ∃ n, PyObjectConverter.fromBoolean st b =
      some (if b then Py_True else Py_False,
        st.store (if b then Py_True else Py_False) (some ⟨n + 1, .bool b⟩)) := by
  obtain ⟨_, ⟨nt, ht⟩, ⟨nf, hf⟩⟩ := hs
  cases b
  · exact ⟨nf, by simp [PyObjectConverter.fromBoolean, PyBool_FromLong, Py_INCREF, hf]⟩
  · exact ⟨nt, by simp [PyObjectConverter.fromBoolean, PyBool_FromLong, Py_INCREF, ht]⟩

/-- Claim C10.  In an interpreter with its singletons in place and a free next address:
`fromBoolean b` is tagged `BOOLEAN` and `boolean` gives `b` back; `fromFloating x` is
tagged `FLOATING` and `floating` gives the same `double` back (the same bit pattern);
for well-formed UTF-8 `s` without a NUL, `fromString s` is tagged `STRING` and `string`
returns a buffer holding exactly `s`, for a converter whose slot is empty or holds a
live object; `none()` is tagged `NONE`; the values of a new list builder and a new dict
builder are tagged `LIST` and `DICT`.  Every `type` call returns the state it was
given, so no diagnostic is written. -/
theorem constructors_read_back (st : PyState) (hs : st.Singletons)
    (hfresh : st.heap (st.brk + 1) = Option.none) :
    (∀ b : Bool, ∃ o st1, PyObjectConverter.fromBoolean st b = some (o, st1) ∧
      PyObjectConverter.type st1 o = some (TypeTag.BOOLEAN, st1) ∧
      PyObjectConverter.boolean o = b) ∧
    (∀ x : Nat,
      PyObjectConverter.type (PyObjectConverter.fromFloating st x).2
          (PyObjectConverter.fromFloating st x).1 =
        some (TypeTag.FLOATING, (PyObjectConverter.fromFloating st x).2) ∧
      PyObjectConverter.floating (PyObjectConverter.fromFloating st x).2
          (PyObjectConverter.fromFloating st x).1 =
        some (x, (PyObjectConverter.fromFloating st x).2)) ∧
    (∀ (s : List Nat) (c : PyObjectConverter), wellFormedUtf8 s = true → 0 ∉ s →
      (c.stringcontainer = NULL ∨ ∃ obj, st.heap c.stringcontainer = some obj) →
      PyObjectConverter.type (PyObjectConverter.fromString st s).2
          (PyObjectConverter.fromString st s).1 =
        some (TypeTag.STRING, (PyObjectConverter.fromString st s).2) ∧
      ∃ c1 st2, PyObjectConverter.string (PyObjectConverter.fromString st s).2 c
          (PyObjectConverter.fromString st s).1 = some (some s, c1, st2) ∧
        cstr s = s ∧ st2.stderr = st.stderr ∧ st2.err = st.err) ∧
    (∃ o st1, PyObjectConverter.none st = some (o, st1) ∧
      PyObjectConverter.type st1 o = some (TypeTag.NONE, st1)) ∧
    PyObjectConverter.type (PyObjectConverter.newList st).2
        (PyObjectConverter.newList st).1.value =
      some (TypeTag.LIST, (PyObjectConverter.newList st).2) ∧
    PyObjectConverter.type (PyObjectConverter.newDict st).2
        (PyObjectConverter.newDict st).1.value =
      some (TypeTag.DICT, (PyObjectConverter.newDict st).2) := by
  refine ⟨?_, ?_, ?_, ?_, ?_, ?_⟩
  · intro b
    obtain ⟨n, hb⟩ := fromBoolean_eq st b hs
    refine ⟨_, _, hb, ?_, ?_⟩
    · have hN : (if b then Py_True else Py_False) ≠ NULL := by cases b <;> decide
      have hh : (st.store (if b then Py_True else Py_False) (some ⟨n + 1, .bool b⟩)).heap
          (if b then Py_True else Py_False) = some ⟨n + 1, .bool b⟩ := by
        rw [heap_store _ _ _ _ hN]; simp
      rw [type_of_data _ _ _ hh (by simp [recognised, PyBool_Check])]
      simp [tagByPriority, PyBool_Check]
    · cases b <;> decide
  · intro x
    have hh : (PyObjectConverter.fromFloating st x).2.heap
        (PyObjectConverter.fromFloating st x).1 = some ⟨1, .float x⟩ :=
      heap_alloc_self st _
    refine ⟨?_, ?_⟩
    · rw [type_of_data _ _ _ hh (by simp [recognised, PyFloat_Check, PyBool_Check, PyLong_Check])]
      simp [tagByPriority, PyBool_Check, PyLong_Check, PyFloat_Check]
    · simp only [PyObjectConverter.floating, PyFloat_AsDouble, hh]
  · intro s c hw h0 hslot
    obtain ⟨cps, hf, he⟩ := fromString_eq st s hw h0
    rw [hf]
    have hh : (st.alloc (.unicode cps)).2.heap (st.alloc (.unicode cps)).1 =
        some ⟨1, .unicode cps⟩ := heap_alloc_self st _
    refine ⟨?_, ?_⟩
    · rw [type_of_data _ _ _ hh (by simp [recognised, PyUnicode_Check, PyFloat_Check,
        PyBool_Check, PyLong_Check])]
      simp [tagByPriority, PyBool_Check, PyLong_Check, PyFloat_Check, PyUnicode_Check]
    · have hslot2 : c.stringcontainer = NULL ∨ (c.stringcontainer ≠ (st.alloc (.unicode cps)).1 ∧
          ∃ obj, (st.alloc (.unicode cps)).2.heap c.stringcontainer = some obj) := by
        rcases hslot with h | ⟨obj, hobj⟩
        · exact Or.inl h
        · have hne : c.stringcontainer ≠ st.brk + 1 := by
            intro he2
            rw [he2, hfresh] at hobj
            cases hobj
          exact Or.inr ⟨hne, obj, by rw [heap_alloc, if_neg hne, hobj]⟩
      rcases hslot2 with hnull | ⟨hne, obj, hobj⟩
      · exact ⟨_, _, string_of_text_empty_slot _ c _ 1 cps s hh he hnull,
          cstr_of_no_NUL s h0, rfl, rfl⟩
      · exact ⟨_, _, string_of_text_full_slot _ c _ 1 cps s obj hh he hobj hne,
          cstr_of_no_NUL s h0, rfl, rfl⟩
  · obtain ⟨⟨nn, hn⟩, _, _⟩ := hs
    refine ⟨Py_None, st.store Py_None (some ⟨nn + 1, .none⟩), ?_, ?_⟩
    · simp [PyObjectConverter.none, Py_RETURN_NONE, Py_INCREF, hn]
    · have hh : (st.store Py_None (some ⟨nn + 1, .none⟩)).heap Py_None =
          some ⟨nn + 1, .none⟩ := by
        rw [heap_store _ _ _ _ (by decide)]; simp
      rw [type_eq _ _ _ hh]
      simp [recognised, PyBool_Check, PyLong_Check, PyFloat_Check, PyUnicode_Check,
        PyBytes_Check, PyList_Check, PyTuple_Check, PyDict_Check]
  · exact type_of_list _ _ _ _ (new_list_empty st)
  · have hh : (PyObjectConverter.newDict st).2.heap (PyObjectConverter.newDict st).1.value =
        some ⟨1, .dict []⟩ := heap_alloc_self st _
    rw [type_of_data _ _ _ hh (by simp [recognised, PyDict_Check])]
    simp [tagByPriority, PyBool_Check, PyLong_Check, PyFloat_Check, PyUnicode_Check,
      PyBytes_Check, PyList_Check, PyTuple_Check, PyDict_Check]

/-- A fresh interpreter has its singletons. -/
theorem init_Singletons : PyState.init.Singletons :=
  ⟨⟨1, by decide⟩, ⟨1, by decide⟩, ⟨1, by decide⟩⟩

/-- Instance of C10 in a fresh interpreter for the string with the bytes `78 C3 A9`. -/
theorem constructors_read_back_witness :
    PyState.init.Singletons ∧ PyState.init.heap (PyState.init.brk + 1) = Option.none ∧
    wellFormedUtf8 [120, 195, 169] = true ∧ 0 ∉ [120, 195, 169] ∧
    (PyObjectConverter.type (PyObjectConverter.fromString PyState.init [120, 195, 169]).2
          (PyObjectConverter.fromString PyState.init [120, 195, 169]).1 =
        some (TypeTag.STRING, (PyObjectConverter.fromString PyState.init [120, 195, 169]).2) ∧
      ∃ c1 st2, PyObjectConverter.string
          (PyObjectConverter.fromString PyState.init [120, 195, 169]).2 PyObjectConverter.new
          (PyObjectConverter.fromString PyState.init [120, 195, 169]).1 =
            some (some [120, 195, 169], c1, st2) ∧
        cstr [120, 195, 169] = [120, 195, 169] ∧ st2.stderr = PyState.init.stderr ∧
        st2.err = PyState.init.err) :=
  ⟨init_Singletons, by decide, by decide, by decide,
    (constructors_read_back PyState.init init_Singletons (by decide)).2.2.1 [120, 195, 169]
      PyObjectConverter.new (by decide) (by decide) (Or.inl rfl)⟩
/-- Under the allocator invariant every live object is at or below the last address handed out. -/
theorem le_brk_of_live (st : PyState) (hf : st.Fresh) (a : Addr) (obj : PyObj)
    (h : st.heap a = some obj) : a ≤ st.brk := by
  by_contra hlt
  rw [hf a (by (try simp only [Addr] at *); omega)] at h
  cases h

/-- One `string` call on a `bytes` or an encodable `str` keeps the slot invariant. -/
theorem slotInv_step (st0 st : PyState) (c : PyObjectConverter) (encs : List (List Nat))
    (o : Addr) (hinv : SlotInv st0 st c encs) (hfresh : st0.Fresh)
    (harg : stringArg st0 o = true) :
    ∃ p c1 st1, PyObjectConverter.string st c o = some (p, c1, st1) ∧
      SlotInv st0 st1 c1 (encs ++ textEncodings st0 [o]) := by
  obtain ⟨hbrk, hold, hnew, hmid, hslot, herr, hse⟩ := hinv
  cases ho : st0.heap o with
  | none => simp [stringArg, ho] at harg
  | some obj =>
    have hole := le_brk_of_live st0 hfresh o obj ho
    have ho1 : st.heap o = some obj := by rw [hold o hole, ho]
    obtain ⟨n, d⟩ := obj
    cases d with
    | bytes bs =>
      refine ⟨some bs, c, st, string_of_bytes st c o n bs ho1, ?_⟩
      simp only [textEncodings, ho, List.append_nil]
      exact ⟨hbrk, hold, hnew, hmid, hslot, herr, hse⟩
    | unicode cps =>
      cases he : utf8Encode cps with
      | none => simp [stringArg, ho, he] at harg
      | some bs =>
        have hte : textEncodings st0 [o] = [bs] := by simp [textEncodings, ho, he]
        rw [hte]
        cases hl : encs.getLast? with
        | none =>
          rw [hl] at hslot
          simp only at hslot
          have hnil : encs = [] := by simpa using hl
          subst hnil
          simp only [List.length_nil, Nat.add_zero] at hbrk
          refine ⟨some bs, ⟨st.brk + 1⟩, _,
            string_of_text_empty_slot st c o n cps bs ho1 he hslot, ?_⟩
          refine ⟨by simp [hbrk], ?_, ?_, ?_, ?_, herr, hse⟩
          · intro a ha
            rw [heap_alloc, if_neg (by (try simp only [Addr] at *); omega), hold a ha]
          · intro a ha
            rw [heap_alloc, if_neg (by simp only [alloc_brk] at ha; (try simp only [Addr] at *); omega)]
            exact hnew a (by simp only [alloc_brk] at ha; (try simp only [Addr] at *); omega)
          · intro a h1 h2
            simp only [alloc_brk] at h2
            (try simp only [Addr] at *); omega
          · simp only [List.nil_append, List.getLast?_singleton, alloc_brk]
            exact ⟨trivial, heap_alloc_self st _⟩
        | some old =>
          rw [hl] at hslot
          simp only at hslot
          obtain ⟨hsc, hsh⟩ := hslot
          have hne0 : encs ≠ [] := by
            intro h; subst h; simp at hl
          have hlen : 0 < encs.length := List.length_pos.mpr hne0
          have hne : c.stringcontainer ≠ o := by rw [hsc]; (try simp only [Addr] at *); omega
          have hsh2 : st.heap c.stringcontainer = some ⟨1, .bytes old⟩ := by rw [hsc]; exact hsh
          have hstr := string_of_text_full_slot st c o n cps bs _ ho1 he hsh2 hne
          simp only [le_refl, if_true] at hstr
          have hbN : st.brk ≠ NULL := by
            intro h0
            rw [h0] at hsh
            simp at hsh
          refine ⟨some bs, ⟨st.brk + 1⟩, _, hstr, ?_⟩
          rw [hsc]
          refine ⟨by simp only [alloc_brk, store_brk, List.length_append, List.length_singleton]; (try simp only [Addr] at *); omega, ?_, ?_, ?_, ?_, herr, hse⟩
          · intro a ha
            rw [heap_alloc, store_brk, if_neg (by (try simp only [Addr] at *); omega), heap_store _ _ _ _ hbN,
              if_neg (by (try simp only [Addr] at *); omega), hold a ha]
          · intro a ha
            simp only [alloc_brk, store_brk] at ha
            rw [heap_alloc, store_brk, if_neg (by (try simp only [Addr] at *); omega), heap_store _ _ _ _ hbN,
              if_neg (by (try simp only [Addr] at *); omega)]
            exact hnew a (by (try simp only [Addr] at *); omega)
          · intro a h1 h2
            simp only [alloc_brk, store_brk] at h2
            rw [heap_alloc, store_brk, if_neg (by (try simp only [Addr] at *); omega), heap_store _ _ _ _ hbN]
            by_cases hab : a = st.brk
            · simp [hab]
            · rw [if_neg hab]
              exact hmid a h1 (by (try simp only [Addr] at *); omega)
          · rw [List.getLast?_append]
            simp only [List.getLast?_singleton, Option.or_some, alloc_brk, store_brk]
            refine ⟨trivial, ?_⟩
            have := heap_alloc_self (st.store st.brk Option.none) (.bytes bs)
            simpa using this
    | _ => simp [stringArg, ho] at harg
/-- The buffers made for a run of calls: those of the first call, then those of the rest. -/
theorem textEncodings_cons (st : PyState) (o : Addr) (os : List Addr) :
    textEncodings st (o :: os) = textEncodings st [o] ++ textEncodings st os := by
  simp only [textEncodings]
  split
  · split <;> simp
  · simp

/-- A run of `string` calls keeps the slot invariant. -/
theorem slotInv_stringAll (st0 : PyState) (hfresh : st0.Fresh) (os : List Addr) :
    ∀ (st : PyState) (c : PyObjectConverter) (encs : List (List Nat)),
      SlotInv st0 st c encs → (∀ o ∈ os, stringArg st0 o = true) →
      ∃ c1 st1, PyObjectConverter.stringAll st c os = some (c1, st1) ∧
        SlotInv st0 st1 c1 (encs ++ textEncodings st0 os) := by
  induction os with
  | nil =>
    intro st c encs hinv _
    exact ⟨c, st, rfl, by simpa [textEncodings] using hinv⟩
  | cons o os ih =>
    intro st c encs hinv hargs
    obtain ⟨p, c1, st1, hs, hinv1⟩ :=
      slotInv_step st0 st c encs o hinv hfresh (hargs o (List.mem_cons_self _ _))
    obtain ⟨c2, st2, hs2, hinv2⟩ := ih st1 c1 _ hinv1
      (fun w hw => hargs w (List.mem_cons_of_mem _ hw))
    refine ⟨c2, st2, ?_, ?_⟩
    · simp only [PyObjectConverter.stringAll, hs, hs2]
    · rw [textEncodings_cons, ← List.append_assoc]
      exact hinv2

/-- A new converter in a state with the allocator invariant satisfies the slot invariant. -/
theorem slotInv_init (st0 : PyState) (hfresh : st0.Fresh) :
    SlotInv st0 st0 PyObjectConverter.new [] := by
  refine ⟨rfl, fun _ _ => rfl, hfresh, ?_, rfl, rfl, rfl⟩
  intro a h1 h2
  exact absurd h2 (by (try simp only [Addr] at *); omega)

/-- Under the slot invariant the destructor leaves no buffer behind and the old objects untouched. -/
theorem slotInv_destructor (st0 st : PyState) (c : PyObjectConverter)
    (encs : List (List Nat)) (hinv : SlotInv st0 st c encs) :
    ∃ st1, PyObjectConverter.destructor st c = some st1 ∧
      (∀ a, st0.brk < a → st1.heap a = Option.none) ∧
      (∀ a, a ≤ st0.brk → st1.heap a = st0.heap a) ∧
      st1.err = st0.err ∧ st1.stderr = st0.stderr := by
  obtain ⟨hbrk, hold, hnew, hmid, hslot, herr, hse⟩ := hinv
  cases hl : encs.getLast? with
  | none =>
    rw [hl] at hslot
    simp only at hslot
    have hnil : encs = [] := by simpa using hl
    subst hnil
    simp only [List.length_nil, Nat.add_zero] at hbrk
    refine ⟨st, by simp [PyObjectConverter.destructor, hslot], ?_, hold, herr, hse⟩
    intro a ha
    exact hnew a (by (try simp only [Addr] at *); omega)
  | some old =>
    rw [hl] at hslot
    simp only at hslot
    obtain ⟨hsc, hsh⟩ := hslot
    have hne0 : encs ≠ [] := by
      intro h; subst h; simp at hl
    have hlen : 0 < encs.length := List.length_pos.mpr hne0
    have hbN : st.brk ≠ NULL := ne_NULL_of_heap hsh
    refine ⟨st.store st.brk Option.none, ?_, ?_, ?_, herr, hse⟩
    · unfold PyObjectConverter.destructor
      rw [hsc, if_pos hbN, Py_DECREF_eq st _ _ hsh]
      simp
    · intro a ha
      rw [heap_store _ _ _ _ hbN]
      by_cases hab : a = st.brk
      · simp [hab]
      · rw [if_neg hab]
        by_cases h3 : a < st.brk
        · exact hmid a ha h3
        · exact hnew a (by (try simp only [Addr] at *); omega)
    · intro a ha
      rw [heap_store _ _ _ _ hbN, if_neg (by (try simp only [Addr] at *); omega), hold a ha]

/-- Claim C8, amended (text values restricted to those that have a UTF-8 encoding).  The
slot is empty after construction.  `string` on a `bytes` returns its bytes and changes
neither the slot nor the state.  `string` on an encodable `str` with an empty slot
stores a new buffer holding the encoding; with a buffer in the slot it first releases
that buffer once (`Py_DECREF`, its count goes down by one) and then stores the new one.
After any run of `string` calls on `bytes` and encodable `str` objects of `st0`, started
with a new converter: one buffer was made per `str`, the objects of `st0` are as they
were, every buffer other than the one in the slot has been freed, the slot is empty
when no `str` was seen and otherwise holds the only reference to the encoding of the
last one, and after the destructor no buffer is left. -/
theorem string_slot_discipline (st0 : PyState) (os : List Addr) (hfresh : st0.Fresh)
    (hargs : ∀ o ∈ os, stringArg st0 o = true) :
    PyObjectConverter.new.stringcontainer = NULL ∧
    (∀ (st : PyState) (c : PyObjectConverter) (o : Addr) (n : Nat) (bs : List Nat),
      st.heap o = some ⟨n, .bytes bs⟩ →
      PyObjectConverter.string st c o = some (some bs, c, st)) ∧
    (∀ (st : PyState) (c : PyObjectConverter) (o : Addr) (n : Nat) (cps bs : List Nat),
      st.heap o = some ⟨n, .unicode cps⟩ → utf8Encode cps = some bs →
      c.stringcontainer = NULL →
      PyObjectConverter.string st c o =
        some (some bs, ⟨st.brk + 1⟩, (st.alloc (.bytes bs)).2)) ∧
    (∀ (st : PyState) (c : PyObjectConverter) (o : Addr) (n k : Nat) (cps bs old : List Nat),
      st.heap o = some ⟨n, .unicode cps⟩ → utf8Encode cps = some bs →
      st.heap c.stringcontainer = some ⟨k, .bytes old⟩ →
      ∃ st1, Py_DECREF st c.stringcontainer = some st1 ∧
        st1.refcnt c.stringcontainer = k - 1 ∧
        PyObjectConverter.string st c o =
          some (some bs, ⟨st.brk + 1⟩, (st1.alloc (.bytes bs)).2)) ∧
    (∃ c st, PyObjectConverter.stringAll st0 PyObjectConverter.new os = some (c, st) ∧
      st.brk = st0.brk + (textEncodings st0 os).length ∧
      (∀ a, a ≤ st0.brk → st.heap a = st0.heap a) ∧
      (∀ a, st0.brk < a → a ≠ c.stringcontainer → st.heap a = Option.none) ∧
      (match (textEncodings st0 os).getLast? with
       | Option.none => c.stringcontainer = NULL
       | some bs => c.stringcontainer = st.brk ∧
           st.heap c.stringcontainer = some ⟨1, .bytes bs⟩) ∧
      ∃ st1, PyObjectConverter.destructor st c = some st1 ∧
        (∀ a, st0.brk < a → st1.heap a = Option.none) ∧
        (∀ a, a ≤ st0.brk → st1.heap a = st0.heap a)) := by
  refine ⟨rfl, ?_, ?_, ?_, ?_⟩
  · intro st c o n bs ho
    exact string_of_bytes st c o n bs ho
  · intro st c o n cps bs ho he hs
    exact string_of_text_empty_slot st c o n cps bs ho he hs
  · intro st c o n k cps bs old ho he hs
    have hne : c.stringcontainer ≠ o := by
      intro h
      rw [h, ho] at hs
      cases hs
    have hsN := ne_NULL_of_heap hs
    refine ⟨_, Py_DECREF_eq st _ _ hs, ?_, string_of_text_full_slot st c o n cps bs _ ho he hs hne⟩
    simp only [PyState.refcnt]
    rw [heap_store _ _ _ _ hsN]
    simp only [if_true]
    split_ifs with hk
    · simp only
      omega
    · rfl
  · obtain ⟨c, st, hrun, hinv⟩ :=
      slotInv_stringAll st0 hfresh os st0 PyObjectConverter.new [] (slotInv_init st0 hfresh) hargs
    rw [List.nil_append] at hinv
    obtain ⟨st1, hd, hd1, hd2, _, _⟩ := slotInv_destructor st0 st c _ hinv
    obtain ⟨hbrk, hold, hnew, hmid, hslot, herr, hse⟩ := hinv
    refine ⟨c, st, hrun, hbrk, hold, ?_, ?_, st1, hd, hd1, hd2⟩
    · intro a ha hne
      by_cases h3 : a < st.brk
      · exact hmid a ha h3
      · by_cases h4 : a = st.brk
        · exfalso
          cases hl : (textEncodings st0 os).getLast? with
          | none =>
            have hnil : textEncodings st0 os = [] := by simpa using hl
            rw [hnil] at hbrk
            simp only [List.length_nil, Nat.add_zero] at hbrk
            (try simp only [Addr] at *); omega
          | some bs =>
            rw [hl] at hslot
            exact hne (by rw [h4]; exact hslot.1.symm)
        · exact hnew a (by (try simp only [Addr] at *); omega)
    · cases hl : (textEncodings st0 os).getLast? with
      | none => rw [hl] at hslot; exact hslot
      | some bs =>
        rw [hl] at hslot
        exact ⟨hslot.1, by rw [hslot.1]; exact hslot.2⟩
/-- A fresh interpreter satisfies the allocator invariant. -/
theorem fresh_init : PyState.init.Fresh := by
  intro a ha
  have h3 : (3 : Nat) < a := ha
  have h1 : a ≠ NULL := by simp only [NULL]; (try simp only [Addr] at *); omega
  have h2 : a ≠ Py_None := by simp only [Py_None]; (try simp only [Addr] at *); omega
  have h4 : a ≠ Py_True := by simp only [Py_True]; (try simp only [Addr] at *); omega
  have h5 : a ≠ Py_False := by simp only [Py_False]; (try simp only [Addr] at *); omega
  simp [PyState.heap, PyState.init, h1, h2, h4, h5]

/-- Allocation keeps the allocator invariant. -/
theorem fresh_alloc (st : PyState) (d : PyData) (h : st.Fresh) : (st.alloc d).2.Fresh := by
  intro a ha
  simp only [alloc_brk] at ha
  rw [heap_alloc, if_neg (by (try simp only [Addr] at *); omega)]
  exact h a (by (try simp only [Addr] at *); omega)

/-- Instance of the amended C8: a `str`, a `bytes` and the `str` again. -/
theorem string_slot_discipline_witness :
    ((PyState.init.alloc (.unicode [120])).2.alloc (.bytes [1, 2])).2.Fresh ∧
    (∀ o ∈ [4, 5, 4],
      stringArg ((PyState.init.alloc (.unicode [120])).2.alloc (.bytes [1, 2])).2 o = true) ∧
    (∃ c st, PyObjectConverter.stringAll
        ((PyState.init.alloc (.unicode [120])).2.alloc (.bytes [1, 2])).2
        PyObjectConverter.new [4, 5, 4] = some (c, st) ∧
      st.brk = ((PyState.init.alloc (.unicode [120])).2.alloc (.bytes [1, 2])).2.brk +
        (textEncodings ((PyState.init.alloc (.unicode [120])).2.alloc (.bytes [1, 2])).2
          [4, 5, 4]).length ∧
      (∀ a, a ≤ ((PyState.init.alloc (.unicode [120])).2.alloc (.bytes [1, 2])).2.brk →
        st.heap a = ((PyState.init.alloc (.unicode [120])).2.alloc (.bytes [1, 2])).2.heap a) ∧
      (∀ a, ((PyState.init.alloc (.unicode [120])).2.alloc (.bytes [1, 2])).2.brk < a →
        a ≠ c.stringcontainer → st.heap a = Option.none) ∧
      (match (textEncodings ((PyState.init.alloc (.unicode [120])).2.alloc (.bytes [1, 2])).2
          [4, 5, 4]).getLast? with
       | Option.none => c.stringcontainer = NULL
       | some bs => c.stringcontainer = st.brk ∧
           st.heap c.stringcontainer = some ⟨1, .bytes bs⟩) ∧
      ∃ st1, PyObjectConverter.destructor st c = some st1 ∧
        (∀ a, ((PyState.init.alloc (.unicode [120])).2.alloc (.bytes [1, 2])).2.brk < a →
          st1.heap a = Option.none) ∧
        (∀ a, a ≤ ((PyState.init.alloc (.unicode [120])).2.alloc (.bytes [1, 2])).2.brk →
          st1.heap a = ((PyState.init.alloc (.unicode [120])).2.alloc (.bytes [1, 2])).2.heap a)) :=
  ⟨fresh_alloc _ _ (fresh_alloc _ _ fresh_init), by decide,
    (string_slot_discipline ((PyState.init.alloc (.unicode [120])).2.alloc (.bytes [1, 2])).2
      [4, 5, 4] (fresh_alloc _ _ (fresh_alloc _ _ fresh_init)) (by decide)).2.2.2.2⟩

/-- Counterexample to C8 as stated: the `str` made of the lone surrogate `U+D800` is
tagged `STRING` and has no UTF-8 encoding; `PyUnicode_AsUTF8String` returns `NULL` with
`UnicodeEncodeError` set, and `string` has no result (it reads through the null
pointer) instead of storing an encoding in the slot. -/
theorem string_of_lone_surrogate :
    (PyState.init.alloc (.unicode [55296])).2.heap 4 = some ⟨1, .unicode [55296]⟩ ∧
    (PyObjectConverter.type (PyState.init.alloc (.unicode [55296])).2 4).map Prod.fst =
      some TypeTag.STRING ∧
    utf8Encode [55296] = Option.none ∧
    (PyUnicode_AsUTF8String (PyState.init.alloc (.unicode [55296])).2 4).map
      (fun r => (r.1, r.2.err)) = some (NULL, some PyExc.UnicodeEncodeError) ∧
    (PyObjectConverter.string (PyState.init.alloc (.unicode [55296])).2
      PyObjectConverter.new 4).isNone = true := by
  refine ⟨by decide, by decide, by decide, by decide, by decide⟩

/-- Instance of C1 at `True`: it is a `bool` and an `int`, and is tagged `BOOLEAN`. -/
theorem type_first_match_witness :
    PyState.init.heap Py_True = some ⟨1, .bool true⟩ ∧
    (PyBool_Check (PyObj.mk 1 (.bool true)).data = true →
      PyLong_Check (PyObj.mk 1 (.bool true)).data = true ∧
      ∃ st1, PyObjectConverter.type PyState.init Py_True = some (TypeTag.BOOLEAN, st1)) :=
  ⟨by decide, (type_first_match PyState.init Py_True ⟨1, .bool true⟩ (by decide)).2.2.1⟩

end PyOtherSide
